import Mathlib

/-!
# Verification of the satellite-data acquisition pipeline (server.js)

Shallow embedding of the core pipeline of the repository's `server.js`:

* `parseMultipartResponse` — the byte-level multipart decoder
  (`SentinelHubService.parseMultipartResponse`),
* `getAccessToken` — the token manager (`SentinelHubService.getAccessToken`),
* `getSatelliteData` — the fetch orchestrator with its cache
  (`SentinelHubService.getSatelliteData`),
* the `POST /api/satellite-data` handler's bounding-box validation,
* the hourly cache sweep cron task.

Buffers are modelled as `List Nat` (byte values); JavaScript's
`Buffer.indexOf` is `findFrom`, `Buffer.slice` is `jsSlice` (including the
negative-index wrap-around semantics), the regexes on header text are
modelled character-by-character, and `Date.now()` and the outcomes of the
two network calls are explicit parameters.
-/

/-- Bytes of a buffer, each entry one byte value. -/
abbrev Bytes := List Nat

/-- Byte list of an ASCII string (model of JS string/Buffer literals). -/
def str2bytes (s : String) : Bytes :=
  s.toList.map Char.toNat

/-- Association list used to model a JS object / `Map`:
keys are bound at most once, later `set`s overwrite in place. -/
abbrev Parts := List (Bytes × Bytes)

/-! ## `Buffer.indexOf` -/

/-- Auxiliary scan for `findFrom`: tries positions `i, i+1, ...`,
`n` positions in total, returning the first where `pat` occurs. -/
def findFromGo (buf pat : Bytes) : Nat → Nat → Option Nat
  | 0, _ => none
  | n + 1, i => if pat.isPrefixOf (buf.drop i) then some i else findFromGo buf pat n (i + 1)

/-- Model of JS `buf.indexOf(pat, s)` for a nonempty `pat`:
the least position `≥ s` where `pat` occurs in `buf`, else `none` (JS `-1`). -/
def findFrom (buf pat : Bytes) (s : Nat) : Option Nat :=
  findFromGo buf pat (buf.length + 1 - s) s

/-! ## `Buffer.slice` -/

/-- Index normalization of JS `Buffer.slice`: a negative index counts from
the end (clamped below at 0), a nonnegative one is clamped above at the
length. -/
def jsClamp (len : Nat) (i : Int) : Nat :=
  if i < 0 then ((len : Int) + i).toNat else min i.toNat len

/-- Model of JS `buf.slice(s, e)`: negative indices count from the end,
out-of-range indices are clamped, and `s ≥ e` yields an empty buffer. -/
def jsSlice (l : Bytes) (s e : Int) : Bytes :=
  (l.take (jsClamp l.length e)).drop (jsClamp l.length s)

/-! ## The `Content-ID` header regex

`headers.match(/Content-ID: <([^>]+)>/)` — leftmost match of the literal
text `Content-ID: <`, then a nonempty capture of non-`>` bytes, then `>`.
The JS code first decodes the header slice with `toString()` (UTF-8) and
matches on the string; the match is modelled here directly on the bytes,
which coincides with the string-level match on the ASCII headers this
regex is written for.
-/

/-- The bytes of the literal `Content-ID: <`. -/
def cidPre : Bytes := str2bytes "Content-ID: <"

/-- Attempt of the `Content-ID: <([^>]+)>` match anchored at the head of `l`:
the literal prefix, then a maximal nonempty run of non-`>` bytes that is
terminated by `>` (byte 62). -/
def matchCIDAt (l : Bytes) : Option Bytes :=
  if cidPre.isPrefixOf l then
    let rest := l.drop cidPre.length
    let run := rest.takeWhile (fun c => c != 62)
    if run.length = 0 then none
    else if run.length < rest.length then some run else none
  else none

/-- Leftmost match of the `Content-ID` regex over `l` (JS `String.match`). -/
def findContentId : Bytes → Option Bytes
  | [] => none
  | a :: t =>
    match matchCIDAt (a :: t) with
    | some r => some r
    | none => findContentId t

/-! ## JS object / `Map` assignment -/

/-- Assignment `parts[k] = v` on a JS object modelled as an association list:
overwrite in place if bound, else append. -/
def insertPart (ps : Parts) (k v : Bytes) : Parts :=
  if ps.any (fun p => p.1 == k) then
    ps.map (fun p => if p.1 == k then (k, v) else p)
  else ps ++ [(k, v)]

/-- Reads such as `parts.truecolor`: association-list lookup. -/
def lookupPart : Parts → Bytes → Option Bytes
  | [], _ => none
  | p :: t, k => if p.1 == k then some p.2 else lookupPart t k

/-! ## The multipart decoder (`SentinelHubService.parseMultipartResponse`) -/

/-- The header/body delimiter bytes `\r\n\r\n`. -/
def crlf2 : Bytes := [13, 10, 13, 10]

/-- The `while (pos !== -1 && pos < end)` loop of `parseMultipartResponse`.
`bb` is the boundary marker bytes (JS `boundaryBuffer`), `e` the precomputed
`end`. The loop makes strictly increasing positions, so a fuel of
`buffer.length + 1` (supplied by `parseMultipartResponse`) never runs out. -/
def parseLoop (buffer bb : Bytes) (e : Nat) : Nat → Parts → Option Nat → Parts
  | _, parts, none => parts
  | 0, parts, some _ => parts
  | fuel + 1, parts, some pos =>
    if pos < e then
      match findFrom buffer crlf2 pos with
      | none => parts
      | some he =>
        let headers := jsSlice buffer ((pos : Int) + bb.length + 2) (he : Int)
        let nextPos := findFrom buffer bb (he + 4)
        let parts' :=
          match findContentId headers with
          | some cid =>
            let ce : Int :=
              match nextPos with
              | some nb => (nb : Int) - 4
              | none => (e : Int) - 2
            insertPart parts cid (jsSlice buffer ((he : Int) + 4) ce)
          | none => parts
        parseLoop buffer bb e fuel parts' nextPos
    else parts

/-- Model of `SentinelHubService.parseMultipartResponse(buffer, boundary)`:
scans for `--boundary` occurrences bounded by the first `--boundary--`
(or the buffer end), extracts `Content-ID`-carrying parts. Total: the JS
body contains no `throw`. -/
def parseMultipartResponse (buffer : Bytes) (bnd : Bytes) : Parts :=
  let bb := [45, 45] ++ bnd
  let eb := bb ++ [45, 45]
  let e := (findFrom buffer eb 0).getD buffer.length
  parseLoop buffer bb e (buffer.length + 1) [] (findFrom buffer bb 0)

/-! ## Token manager (`SentinelHubService.getAccessToken`)

`this.token` / `this.tokenExpiry` start as `null`; the expiry is stored in
milliseconds (`Date.now() + expires_in * 1000`).  A missing `expires_in`
in the response JSON makes the stored expiry `NaN`; both `null` and `NaN`
make the guard `this.tokenExpiry > Date.now()` false, so both are encoded
as `none`.  The guard `this.token && ...` short-circuits on a `null` or
empty-string token. -/

structure TokenState where
  token : Option String
  tokenExpiry : Option Int
deriving DecidableEq

/-- Outcome of the credential-exchange POST: `httpError` models a network
failure or non-2xx status (axios throws), `ok` a 2xx response whose JSON
may or may not carry `access_token` / `expires_in`. -/
inductive ExchangeOutcome where
  | httpError : ExchangeOutcome
  | ok (accessToken : Option String) (expiresIn : Option Int) : ExchangeOutcome
deriving DecidableEq

/-- The `Error("Authentication failed with Sentinel Hub")` thrown by the
catch block of `getAccessToken`. -/
inductive AuthError where
  | authFailed : AuthError
deriving DecidableEq

/-- The guard `this.token && this.tokenExpiry > Date.now()`: a truthy
(non-null, nonempty) token and a numeric expiry strictly in the future. -/
def tokenValid (st : TokenState) (now : Int) : Bool :=
  match st.token, st.tokenExpiry with
  | some t, some e => t != "" && decide (now < e)
  | _, _ => false

/-- Model of `SentinelHubService.getAccessToken`, with `Date.now()` and the
exchange outcome as explicit inputs.  Returns the JS return value
(`this.token`, possibly `undefined` = `none`), the updated mutable state,
and the number of exchange requests issued (0 or 1). -/
def getAccessToken (st : TokenState) (now : Int) (ex : ExchangeOutcome) :
    Except AuthError (Option String) × TokenState × Nat :=
  if tokenValid st now then (Except.ok st.token, st, 0)
  else
    match ex with
    | ExchangeOutcome.httpError => (Except.error AuthError.authFailed, st, 1)
    | ExchangeOutcome.ok tok ei =>
      (Except.ok tok, ⟨tok, ei.map fun s => now + s * 1000⟩, 1)

/-! ## Base64 and data URIs (`parts.x.toString("base64")`) -/

def base64Chars : List Char :=
  "ABCDEFGHIJKLMNOPQRSTUVWXYZabcdefghijklmnopqrstuvwxyz0123456789+/".toList

def b64c (i : Nat) : Char := base64Chars.getD i 'A'

/-- Standard base64 of a byte list, with `=` padding. -/
def base64Encode : Bytes → List Char
  | [] => []
  | [a] => [b64c (a / 4), b64c (a % 4 * 16), '=', '=']
  | [a, b] => [b64c (a / 4), b64c (a % 4 * 16 + b / 16), b64c (b % 16 * 4), '=']
  | a :: b :: c :: rest =>
    [b64c (a / 4), b64c (a % 4 * 16 + b / 16), b64c (b % 16 * 4 + c / 64), b64c (c % 64)]
      ++ base64Encode rest

/-- The data URI `` `data:${mime};base64,${buf.toString("base64")}` ``. -/
def mkDataUri (mime : String) (b : Bytes) : String :=
  "data:" ++ mime ++ ";base64," ++ String.mk (base64Encode b)

/-! ## `extractBoundary` (`contentType.match(/boundary=([^;]+)/)`) -/

/-- Leftmost match of `boundary=([^;]+)` over the character list. -/
def extractBoundaryL : List Char → Option (List Char)
  | [] => none
  | a :: t =>
    if ("boundary=".toList).isPrefixOf (a :: t) then
      let rest := (a :: t).drop 9
      let run := rest.takeWhile (fun c => c != ';')
      if run.length = 0 then extractBoundaryL t else some run
    else extractBoundaryL t

/-- Model of `SentinelHubService.extractBoundary`: capture of `boundary=([^;]+)`,
or `none` (JS `null`). -/
def extractBoundary (ct : String) : Option String :=
  (extractBoundaryL ct.toList).map fun l => String.mk l

/-- The boundary bytes handed to the parser: when `extractBoundary` gives
`null`, the template literal `` `--${boundary}` `` interpolates the text
`"null"`. -/
def boundaryBytes (ct : String) : Bytes :=
  str2bytes ((extractBoundary ct).getD "null")

/-! ## Orchestrator (`SentinelHubService.getSatelliteData`) and cache -/

/-- The cache key `` `${bbox.join(",")}-${width}-${height}` ``.  Joining a
numeric array with `","` and appending the dimensions is injective in
(bbox, width, height), so the key is modelled by that triple directly. -/
structure RequestKey where
  bbox : List ℚ
  width : Nat
  height : Nat
deriving DecidableEq

/-- Destructured `options` with the JS defaults. -/
structure SatOptions where
  width : Nat := 512
  height : Nat := 512
  maxCloudCoverage : Nat := 30
deriving DecidableEq

/-- The `metadata` object of the result (`timestamp` is the instant the
ISO string was taken from). -/
structure Metadata where
  timestamp : Int
  bbox : List ℚ
  cloudCoverage : Nat
  source : String
deriving DecidableEq

/-- The assembled result object.  `analysis` is produced by
`analyzeSentinelData`, which the spec treats as an out-of-scope external
collaborator (randomized placeholder heuristics), so its value is an
oracle input of an arbitrary type `α`. -/
structure SatPayload (α : Type) where
  truecolor : Option String
  ndvi : Option String
  ndwi : Option String
  scl : Option String
  metadata : Metadata
  analysis : α
deriving DecidableEq

/-- A `cache` entry `{ timestamp, data }`. -/
structure CacheEntry (α : Type) where
  timestamp : Int
  data : SatPayload α
deriving DecidableEq

/-- The module-level `cache` `Map`, insertion-ordered. -/
abbrev Cache (α : Type) := List (RequestKey × CacheEntry α)

/-- Lookup, modelling `Map.get` / `Map.has`. -/
def assocGet {κ β : Type} [DecidableEq κ] : List (κ × β) → κ → Option β
  | [], _ => none
  | p :: t, k => if p.1 = k then some p.2 else assocGet t k

/-- Insertion, modelling `Map.set`: overwrite in place if present, else append. -/
def assocSet {κ β : Type} [DecidableEq κ] (l : List (κ × β)) (k : κ) (v : β) : List (κ × β) :=
  if l.any (fun p => decide (p.1 = k)) then
    l.map (fun p => if p.1 = k then (k, v) else p)
  else l ++ [(k, v)]

/-- Outcome of the imagery-processing POST.  `ok none _` models a 2xx
response without a `content-type` header: `extractBoundary` is then called
on `undefined` and `undefined.match` throws a `TypeError`. -/
inductive TransportOutcome where
  | netError : TransportOutcome
  | ok (contentType : Option String) (body : Bytes) : TransportOutcome

/-- The errors `getSatelliteData` can rethrow (the parser itself never
throws). -/
inductive SatError where
  | authFailed : SatError
  | transportFailed : SatError
  | missingContentType : SatError
deriving DecidableEq

instance {ε α : Type} [DecidableEq ε] [DecidableEq α] : DecidableEq (Except ε α) := fun x y =>
  match x, y with
  | Except.error a, Except.error b =>
    match decEq a b with
    | isTrue h => isTrue (h ▸ rfl)
    | isFalse h => isFalse (fun hc => h (Except.error.inj hc))
  | Except.error _, Except.ok _ => isFalse (fun hc => Except.noConfusion hc)
  | Except.ok _, Except.error _ => isFalse (fun hc => Except.noConfusion hc)
  | Except.ok a, Except.ok b =>
    match decEq a b with
    | isTrue h => isTrue (h ▸ rfl)
    | isFalse h => isFalse (fun hc => h (Except.ok.inj hc))

/-- Oracle inputs of one fetch: exchange outcome, imagery-call outcome,
and the (randomized, out-of-scope) analysis result. -/
structure FetchEnv (α : Type) where
  exchange : ExchangeOutcome
  transport : TransportOutcome
  analysis : α

/-- Assembly of the `result` object from the decoded parts. -/
def mkPayload {α : Type} (parts : Parts) (bbox : List ℚ) (opts : SatOptions) (now : Int)
    (a : α) : SatPayload α :=
  { truecolor := (lookupPart parts (str2bytes "truecolor")).map (mkDataUri "image/png")
    ndvi := (lookupPart parts (str2bytes "ndvi")).map (mkDataUri "image/tiff")
    ndwi := (lookupPart parts (str2bytes "ndwi")).map (mkDataUri "image/tiff")
    scl := (lookupPart parts (str2bytes "scl")).map (mkDataUri "image/tiff")
    metadata := ⟨now, bbox, opts.maxCloudCoverage, "Sentinel-2 L2A"⟩
    analysis := a }

/-- The body of `getSatelliteData`'s `try` block (the path taken when the
cache has no live entry): token acquisition, imagery call, multipart
decoding, payload assembly and cache write; any failure is rethrown with
the cache untouched. -/
def fetchFresh {α : Type} (cache : Cache α) (st : TokenState) (now : Int) (bbox : List ℚ)
    (opts : SatOptions) (env : FetchEnv α) :
    Except SatError (SatPayload α) × Cache α × TokenState :=
  match getAccessToken st now env.exchange with
  | (Except.error _, st', _) => (Except.error SatError.authFailed, cache, st')
  | (Except.ok _tok, st', _) =>
    match env.transport with
    | TransportOutcome.netError => (Except.error SatError.transportFailed, cache, st')
    | TransportOutcome.ok none _ => (Except.error SatError.missingContentType, cache, st')
    | TransportOutcome.ok (some ct) body =>
      let parts := parseMultipartResponse body (boundaryBytes ct)
      let payload : SatPayload α := mkPayload parts bbox opts now env.analysis
      (Except.ok payload, assocSet cache ⟨bbox, opts.width, opts.height⟩ ⟨now, payload⟩, st')

/-- Model of `SentinelHubService.getSatelliteData(bbox, options)`: cache check with
the freshness test `Date.now() - cached.timestamp < CACHE_DURATION`, then
the fresh-fetch path on a miss or a stale entry.  `cacheDuration` is the
configurable `CACHE_DURATION` (default 3600000 ms). -/
def getSatelliteData {α : Type} (cacheDuration : Int) (cache : Cache α) (st : TokenState)
    (now : Int) (bbox : List ℚ) (opts : SatOptions) (env : FetchEnv α) :
    Except SatError (SatPayload α) × Cache α × TokenState :=
  match assocGet cache ⟨bbox, opts.width, opts.height⟩ with
  | some entry =>
    if now - entry.timestamp < cacheDuration then (Except.ok entry.data, cache, st)
    else fetchFresh cache st now bbox opts env
  | none => fetchFresh cache st now bbox opts env

/-- Responses of the `POST /api/satellite-data` handler: 400 on a failed
bbox check, 200 with the payload, 500 on a rethrown pipeline error. -/
inductive ApiResponse (α : Type) where
  | validationError : ApiResponse α
  | success (data : SatPayload α) : ApiResponse α
  | failure (e : SatError) : ApiResponse α
deriving DecidableEq

/-- The `POST /api/satellite-data` handler.  Its only bbox check is
`!bbox || !Array.isArray(bbox) || bbox.length !== 4`; a missing or
non-array `bbox` is modelled by `none`. -/
def handleSatelliteData {α : Type} (cacheDuration : Int) (bbox? : Option (List ℚ))
    (opts : SatOptions) (cache : Cache α) (st : TokenState) (now : Int) (env : FetchEnv α) :
    ApiResponse α × Cache α × TokenState :=
  match bbox? with
  | none => (ApiResponse.validationError, cache, st)
  | some bbox =>
    if bbox.length ≠ 4 then (ApiResponse.validationError, cache, st)
    else
      match getSatelliteData cacheDuration cache st now bbox opts env with
      | (Except.ok d, c', st') => (ApiResponse.success d, c', st')
      | (Except.error e, c', st') => (ApiResponse.failure e, c', st')

/-- The hourly cache-cleaning cron task: deletes every entry with
`now - value.timestamp > CACHE_DURATION` while counting the removals. -/
def sweepCache {α : Type} : Cache α → Int → Int → Cache α × Nat
  | [], _, _ => ([], 0)
  | e :: rest, now, maxAge =>
    let r := sweepCache rest now maxAge
    if now - e.2.timestamp > maxAge then (r.1, r.2 + 1) else (e :: r.1, r.2)

/-! ## Side conditions of the round-trip theorems

All conditions are decidable, so that concrete instances evaluate by
`decide`.  `markerB bnd` is the JS `boundaryBuffer`, `closeMB bnd` the JS
`endBoundaryBuffer`. -/

/-- The marker `--${boundary}` (JS `boundaryBuffer`). -/
def markerB (bnd : Bytes) : Bytes := [45, 45] ++ bnd

/-- The closing marker `--${boundary}--` (JS `endBoundaryBuffer`). -/
def closeMB (bnd : Bytes) : Bytes := markerB bnd ++ [45, 45]

/-- Header line of one encoded part, up to (excluding) the `\r\n\r\n`
delimiter: `--${boundary}\r\nContent-ID: <${id}>`. -/
def hdrB (bnd id : Bytes) : Bytes := markerB bnd ++ [13, 10] ++ cidPre ++ id ++ [62]

/-- One encoded part whose body is closed by a blank line (`\r\n\r\n`)
before the next boundary marker. -/
def blockB (bnd : Bytes) (p : Bytes × Bytes) : Bytes :=
  hdrB bnd p.1 ++ crlf2 ++ p.2 ++ crlf2

/-- Concatenation of the encoded parts. -/
def blocksB (bnd : Bytes) : List (Bytes × Bytes) → Bytes
  | [] => []
  | p :: t => blockB bnd p ++ blocksB bnd t

/-- Multipart encoding of the parts, terminated by the explicit closing
marker `--${boundary}--`. -/
def encodeClose (bnd : Bytes) (ps : List (Bytes × Bytes)) : Bytes :=
  blocksB bnd ps ++ closeMB bnd

/-- Multipart encoding of the same parts that simply ends at end-of-buffer:
the final body is followed by a single `\r\n` and no closing marker. -/
def encodeEOF (bnd : Bytes) (ps : List (Bytes × Bytes)) : Bytes :=
  (blocksB bnd ps).take ((blocksB bnd ps).length - 2)

/-- The final encoded part of `encodeEOF`: the body is followed by a
single `\r\n` and the buffer ends. -/
def lastEB (bnd : Bytes) (p : Bytes × Bytes) : Bytes :=
  hdrB bnd p.1 ++ crlf2 ++ p.2 ++ [13, 10]

/-- Standard multipart framing in the spec's sense (RFC 2046 style): each
part is `--${boundary}\r\n` headers `\r\n\r\n` body `\r\n`, and the body is
closed by `--${boundary}--`.  Used to exhibit how the decoder treats the
conventional single-`\r\n` line break before a boundary. -/
def stdPartB (bnd : Bytes) (p : Bytes × Bytes) : Bytes :=
  markerB bnd ++ [13, 10] ++ cidPre ++ p.1 ++ [62] ++ crlf2 ++ p.2 ++ [13, 10]

/-- Standard multipart body (spec's "standard multipart body with a
boundary"): the `stdPartB` parts followed by the closing marker. -/
def encodeStd (bnd : Bytes) : List (Bytes × Bytes) → Bytes
  | [] => closeMB bnd
  | p :: t => stdPartB bnd p ++ encodeStd bnd t

/-- Decidable well-formedness of one part `(id, body)` with respect to a
boundary: a nonempty id free of `>`, no `\r\n\r\n` occurrence inside the
header line, and no boundary-marker occurrence inside the block other than
at its start. -/
def GoodPart (bnd : Bytes) (p : Bytes × Bytes) : Prop :=
  p.1 ≠ [] ∧ (62 : Nat) ∉ p.1 ∧
  (∀ j < (hdrB bnd p.1).length, ¬ crlf2 <+: (hdrB bnd p.1 ++ crlf2).drop j) ∧
  (∀ j < (blockB bnd p).length, 0 < j → ¬ markerB bnd <+: (blockB bnd p ++ markerB bnd).drop j)

instance (bnd : Bytes) (p : Bytes × Bytes) : Decidable (GoodPart bnd p) := by
  unfold GoodPart; infer_instance

/-! ## Characterization of `findFrom` -/

theorem findFromGo_eq_some {buf pat : Bytes} :
    ∀ {n i j : Nat}, findFromGo buf pat n i = some j →
      i ≤ j ∧ j < i + n ∧ pat <+: buf.drop j ∧
        ∀ k, i ≤ k → k < j → ¬ pat <+: buf.drop k
  | 0, i, j => by simp [findFromGo]
  | n + 1, i, j => by
    intro h
    rw [findFromGo] at h
    by_cases hp : pat.isPrefixOf (buf.drop i)
    · rw [if_pos hp] at h
      injection h with h
      subst h
      exact ⟨Nat.le_refl _, by omega, List.isPrefixOf_iff_prefix.mp hp,
        fun k hk1 hk2 => absurd hk2 (by omega)⟩
    · rw [if_neg hp] at h
      have ih := findFromGo_eq_some (n := n) (i := i + 1) (j := j) h
      refine ⟨by omega, by omega, ih.2.2.1, ?_⟩
      intro k hk1 hk2
      rcases Nat.eq_or_lt_of_le hk1 with hk | hk
      · subst hk
        exact fun hc => hp (List.isPrefixOf_iff_prefix.mpr hc)
      · exact ih.2.2.2 k hk hk2

theorem findFromGo_some_of {buf pat : Bytes} :
    ∀ {n i j : Nat}, i ≤ j → j < i + n → pat <+: buf.drop j →
      (∀ k, i ≤ k → k < j → ¬ pat <+: buf.drop k) →
      findFromGo buf pat n i = some j
  | 0, i, j => by omega
  | n + 1, i, j => by
    intro h1 h2 h3 h4
    rw [findFromGo]
    rcases Nat.eq_or_lt_of_le h1 with hk | hk
    · subst hk
      rw [if_pos (List.isPrefixOf_iff_prefix.mpr h3)]
    · rw [if_neg (fun hp => h4 i (Nat.le_refl i) hk (List.isPrefixOf_iff_prefix.mp hp))]
      exact findFromGo_some_of hk (by omega) h3 (fun k hk1 hk2 => h4 k (by omega) hk2)

/-- An occurrence of a nonempty pattern forces the position inside the
buffer. -/
theorem occ_pos_lt {buf pat : Bytes} (hpat : pat ≠ []) {j : Nat}
    (h : pat <+: buf.drop j) : j < buf.length := by
  have hl := h.length_le
  rw [List.length_drop] at hl
  have : 0 < pat.length := List.length_pos.mpr hpat
  omega

theorem findFrom_eq_some {buf pat : Bytes} {s j : Nat} (h : findFrom buf pat s = some j) :
    s ≤ j ∧ pat <+: buf.drop j ∧ ∀ k, s ≤ k → k < j → ¬ pat <+: buf.drop k := by
  have h' := findFromGo_eq_some h
  exact ⟨h'.1, h'.2.2.1, h'.2.2.2⟩

theorem findFrom_some_of {buf pat : Bytes} (hpat : pat ≠ []) {s j : Nat} (hj : s ≤ j)
    (hocc : pat <+: buf.drop j) (hmin : ∀ k, s ≤ k → k < j → ¬ pat <+: buf.drop k) :
    findFrom buf pat s = some j := by
  have hjl : j < buf.length := occ_pos_lt hpat hocc
  exact findFromGo_some_of hj (by omega) hocc hmin

theorem findFrom_eq_none {buf pat : Bytes} (hpat : pat ≠ []) {s : Nat}
    (h : findFrom buf pat s = none) : ∀ k, s ≤ k → ¬ pat <+: buf.drop k := by
  intro k hk hocc
  have hkl : k < buf.length := occ_pos_lt hpat hocc
  rcases hfg : findFromGo buf pat (buf.length + 1 - s) s with _ | j
  · exact findFromGo_eq_none hfg k hk (by omega) hocc
  · rw [findFrom, hfg] at h; cases h
where
  findFromGo_eq_none {buf pat : Bytes} :
      ∀ {n i : Nat}, findFromGo buf pat n i = none →
        ∀ k, i ≤ k → k < i + n → ¬ pat <+: buf.drop k
    | 0, i => by intro _ k _ _ _; omega
    | n + 1, i => by
      intro h k hk1 hk2 hocc
      rw [findFromGo] at h
      by_cases hp : pat.isPrefixOf (buf.drop i)
      · rw [if_pos hp] at h; cases h
      · rw [if_neg hp] at h
        rcases Nat.eq_or_lt_of_le hk1 with he | hlt
        · subst he; exact hp (List.isPrefixOf_iff_prefix.mpr hocc)
        · exact findFromGo_eq_none h k hlt (by omega) hocc

theorem findFrom_none_of {buf pat : Bytes} {s : Nat}
    (h : ∀ k, s ≤ k → ¬ pat <+: buf.drop k) : findFrom buf pat s = none := by
  rcases hf : findFrom buf pat s with _ | j
  · rfl
  · have h' := findFrom_eq_some hf
    exact absurd h'.2.1 (h j h'.1)

/-! ## Occurrence bookkeeping inside concatenations -/

/-- A pattern fitting inside the left half of an append occurs there. -/
theorem prefix_of_append_split {pat X Y : Bytes} (h : pat <+: X ++ Y)
    (hl : pat.length ≤ X.length) : pat <+: X := by
  have h1 := List.prefix_iff_eq_take.mp h
  rw [List.take_append_of_le_length hl] at h1
  rw [h1]
  exact List.take_prefix pat.length X

/-- Occurrence of `pat` at the junction position `P.length` of
`P ++ pat ++ R`. -/
theorem occ_of_decomp {B P pat R : Bytes} (hB : B = P ++ pat ++ R) :
    pat <+: B.drop P.length := by
  subst hB
  rw [List.append_assoc, List.drop_left]
  exact List.prefix_append pat R

/-- No occurrence of `pat` at offset `j` of the window `W` lifts to no
occurrence at absolute position `P.length + j` whenever the window is wide
enough to contain the whole candidate occurrence. -/
theorem no_occ_of_window {B P W R pat : Bytes} (hB : B = P ++ W ++ R) {j : Nat}
    (hfit : j + pat.length ≤ W.length) (hno : ¬ pat <+: W.drop j) :
    ¬ pat <+: B.drop (P.length + j) := by
  subst hB
  rw [List.append_assoc, List.drop_append, List.drop_append_of_le_length (by omega)]
  intro hc
  exact hno (prefix_of_append_split hc (by rw [List.length_drop]; omega))

/-- Occurrence of `pat` at offset `j` of a window `W` that is a prefix of
`B.drop P.length` lifts to an absolute occurrence. -/
theorem occ_of_window {B P W R pat : Bytes} (hB : B = P ++ W ++ R) {j : Nat}
    (hocc : pat <+: W.drop j) : pat <+: B.drop (P.length + j) := by
  subst hB
  by_cases hj : j ≤ W.length
  · rw [List.append_assoc, List.drop_append, List.drop_append_of_le_length hj]
    exact hocc.trans (List.prefix_append (W.drop j) R)
  · rw [List.drop_eq_nil_of_le (by omega)] at hocc
    rw [List.prefix_nil.mp hocc]
    exact List.nil_prefix

/-! ## Extraction of slices -/

theorem jsClamp_of_le {len a : Nat} (ha : a ≤ len) : jsClamp len (a : Int) = a := by
  rw [jsClamp, if_neg (by omega)]
  rw [Int.toNat_ofNat]
  omega

theorem jsSlice_nat {l : Bytes} {a b : Nat} (ha : a ≤ l.length) (hb : b ≤ l.length) :
    jsSlice l (a : Int) (b : Int) = (l.take b).drop a := by
  rw [jsSlice, jsClamp_of_le ha, jsClamp_of_le hb]

theorem jsSlice_extract {B P X R : Bytes} (hB : B = P ++ X ++ R) :
    jsSlice B (P.length : Int) (((P.length + X.length : Nat) : Int)) = X := by
  subst hB
  have hlen : (P ++ X ++ R).length = P.length + X.length + R.length := by
    simp [List.length_append]
    omega
  rw [jsSlice_nat (by omega) (by omega)]
  rw [List.append_assoc, List.take_append, List.drop_left]
  exact List.take_left X R

/-! ## Behavior of the `Content-ID` regex -/

theorem takeWhile_append_all {p : Nat → Bool} {l x : Bytes} (h : ∀ c ∈ l, p c = true) :
    (l ++ x).takeWhile p = l ++ x.takeWhile p := by
  induction l with
  | nil => simp
  | cons a t ih =>
    have ha := h a (List.mem_cons_self a t)
    rw [List.cons_append, List.takeWhile_cons, if_pos ha, List.cons_append,
      ih (fun c hc => h c (List.mem_cons_of_mem a hc))]

theorem takeWhile_drop_decomp {p : Nat → Bool} {l : Bytes}
    (h : (l.takeWhile p).length < l.length) :
    ∃ b t, l.drop (l.takeWhile p).length = b :: t ∧ p b = false := by
  induction l with
  | nil => simp at h
  | cons a t ih =>
    by_cases ha : p a = true
    · rw [List.takeWhile_cons, if_pos ha] at h ⊢
      simp only [List.length_cons] at h ⊢
      rw [List.drop_succ_cons]
      exact ih (by omega)
    · rw [List.takeWhile_cons, if_neg ha]
      exact ⟨a, t, by simp, by simpa using ha⟩

theorem matchCIDAt_eq_some_iff {l r : Bytes} :
    matchCIDAt l = some r ↔
      cidPre.isPrefixOf l = true ∧
      r = (l.drop cidPre.length).takeWhile (fun c => c != 62) ∧
      r.length ≠ 0 ∧ r.length < (l.drop cidPre.length).length := by
  constructor
  · intro h
    by_cases hp : cidPre.isPrefixOf l = true
    · simp only [matchCIDAt, hp, if_true] at h
      by_cases h0 : ((l.drop cidPre.length).takeWhile (fun c => c != 62)).length = 0
      · rw [if_pos h0] at h; cases h
      · rw [if_neg h0] at h
        by_cases h1 : ((l.drop cidPre.length).takeWhile (fun c => c != 62)).length
            < (l.drop cidPre.length).length
        · rw [if_pos h1] at h
          injection h with h
          exact ⟨hp, h.symm, h ▸ h0, h ▸ h1⟩
        · rw [if_neg h1] at h; cases h
    · simp only [matchCIDAt, hp, if_false] at h
      cases h
  · rintro ⟨hp, hr, h0, h1⟩
    simp only [matchCIDAt, hp, if_true]
    subst hr
    rw [if_neg h0, if_pos h1]

theorem matchCIDAt_encode {id tl : Bytes} (hne : id ≠ []) (hgt : (62 : Nat) ∉ id) :
    matchCIDAt (cidPre ++ (id ++ 62 :: tl)) = some id := by
  have hall : ∀ c ∈ id, (fun c => c != 62) c = true := by
    intro c hc
    simp only [bne_iff_ne, ne_eq]
    exact fun h => hgt (h ▸ hc)
  have htw : (id ++ 62 :: tl).takeWhile (fun c => c != 62) = id := by
    rw [takeWhile_append_all hall, List.takeWhile_cons]
    simp
  rw [matchCIDAt_eq_some_iff]
  refine ⟨List.isPrefixOf_iff_prefix.mpr (List.prefix_append _ _), ?_, ?_, ?_⟩
  · rw [List.drop_left, htw]
  · simpa [List.length_eq_zero] using hne
  · rw [List.drop_left]
    simp only [List.length_append, List.length_cons]
    omega

theorem matchCIDAt_extend {l ext r : Bytes} (h : matchCIDAt l = some r) :
    matchCIDAt (l ++ ext) = some r := by
  rw [matchCIDAt_eq_some_iff] at h ⊢
  obtain ⟨hp, hr, h0, h1⟩ := h
  have hple : cidPre.length ≤ l.length := (List.isPrefixOf_iff_prefix.mp hp).length_le
  have hdropx : (l ++ ext).drop cidPre.length = l.drop cidPre.length ++ ext :=
    List.drop_append_of_le_length hple
  have hall : ∀ c ∈ r, (fun x => x != 62) c = true := by
    intro c hc
    rw [hr] at hc
    exact List.mem_takeWhile_imp (p := fun x => x != 62) hc
  obtain ⟨b, t', hbt, hpb⟩ := takeWhile_drop_decomp
    (p := fun c => c != 62) (l := l.drop cidPre.length) (by rw [← hr]; omega)
  rw [← hr] at hbt
  have hb : b = 62 := by simpa [bne_eq_false_iff_eq] using hpb
  subst hb
  have hpref : r <+: l.drop cidPre.length := by
    rw [hr]
    exact List.takeWhile_prefix _
  have hdecomp : l.drop cidPre.length = r ++ 62 :: t' := by
    conv_lhs => rw [← List.take_append_drop r.length (l.drop cidPre.length)]
    rw [← List.prefix_iff_eq_take.mp hpref, hbt]
  have htw : (l.drop cidPre.length ++ ext).takeWhile (fun c => c != 62) = r := by
    rw [hdecomp, List.append_assoc, List.cons_append, takeWhile_append_all hall,
      List.takeWhile_cons]
    simp
  refine ⟨List.isPrefixOf_iff_prefix.mpr ((List.isPrefixOf_iff_prefix.mp hp).trans
    (List.prefix_append l ext)), ?_, h0, ?_⟩
  · rw [hdropx, htw]
  · rw [hdropx, List.length_append]
    omega

theorem matchCIDAt_nil : matchCIDAt [] = none := by decide

theorem findContentId_of_match {l r : Bytes} (h : matchCIDAt l = some r) :
    findContentId l = some r := by
  cases l with
  | nil => rw [matchCIDAt_nil] at h; cases h
  | cons a t => rw [findContentId, h]

theorem findContentId_some_ex {l r : Bytes} (h : findContentId l = some r) :
    ∃ i, matchCIDAt (l.drop i) = some r := by
  induction l with
  | nil => rw [findContentId] at h; cases h
  | cons a t ih =>
    rw [findContentId] at h
    cases hm : matchCIDAt (a :: t) with
    | some r' =>
      rw [hm] at h
      injection h with h
      subst h
      exact ⟨0, hm⟩
    | none =>
      rw [hm] at h
      obtain ⟨i, hi⟩ := ih h
      exact ⟨i + 1, by simpa using hi⟩

/-! ## Association-list lemmas -/

theorem insertPart_not_mem {ps : Parts} {k v : Bytes} (h : ∀ p ∈ ps, p.1 ≠ k) :
    insertPart ps k v = ps ++ [(k, v)] := by
  rw [insertPart, if_neg]
  intro hc
  rw [List.any_eq_true] at hc
  obtain ⟨p, hp, hpk⟩ := hc
  exact h p hp (by simpa using hpk)

theorem assocGet_assocSet_self {κ β : Type} [DecidableEq κ] (l : List (κ × β)) (k : κ) (v : β) :
    assocGet (assocSet l k v) k = some v := by
  induction l with
  | nil => simp [assocSet, assocGet]
  | cons p t ih =>
    by_cases hpk : p.1 = k
    · rw [assocSet, if_pos (by simp [List.any_cons, hpk])]
      simp [assocGet, hpk]
    · rw [assocSet]
      by_cases hany : (p :: t).any (fun q => decide (q.1 = k)) = true
      · rw [if_pos hany]
        have hat : t.any (fun q => decide (q.1 = k)) = true := by
          simpa [List.any_cons, hpk] using hany
        simp only [List.map_cons, if_neg hpk]
        rw [assocGet, if_neg hpk]
        have h' := ih
        rw [assocSet, if_pos hat] at h'
        exact h'
      · rw [if_neg hany]
        rw [List.cons_append, assocGet, if_neg hpk]
        have hat : ¬ t.any (fun q => decide (q.1 = k)) = true := fun hc =>
          hany (by simp [List.any_cons, hc])
        have h' := ih
        rw [assocSet, if_neg hat] at h'
        exact h'

/-! ## Structure of the encodings -/

theorem cidPre_length : cidPre.length = 13 := by decide

theorem crlf2_ne_nil : crlf2 ≠ [] := by decide

theorem markerB_ne_nil (bnd : Bytes) : markerB bnd ≠ [] := by simp [markerB]

theorem closeMB_ne_nil (bnd : Bytes) : closeMB bnd ≠ [] := by simp [closeMB, markerB]

theorem markerB_length (bnd : Bytes) : (markerB bnd).length = 2 + bnd.length := by
  simp [markerB]
  omega

theorem hdrB_length (bnd id : Bytes) : (hdrB bnd id).length = bnd.length + id.length + 18 := by
  simp only [hdrB, List.length_append, markerB_length, cidPre_length, List.length_cons,
    List.length_nil]
  omega

theorem blockB_length (bnd : Bytes) (p : Bytes × Bytes) :
    (blockB bnd p).length = bnd.length + p.1.length + p.2.length + 26 := by
  simp only [blockB, List.length_append, hdrB_length, crlf2, List.length_cons, List.length_nil]
  omega

theorem lastEB_length (bnd : Bytes) (p : Bytes × Bytes) :
    (lastEB bnd p).length = bnd.length + p.1.length + p.2.length + 24 := by
  simp only [lastEB, List.length_append, hdrB_length, crlf2, List.length_cons, List.length_nil]
  omega

theorem blocksB_cons (bnd : Bytes) (p : Bytes × Bytes) (t : List (Bytes × Bytes)) :
    blocksB bnd (p :: t) = blockB bnd p ++ blocksB bnd t := rfl

theorem blocksB_append (bnd : Bytes) (l₁ l₂ : List (Bytes × Bytes)) :
    blocksB bnd (l₁ ++ l₂) = blocksB bnd l₁ ++ blocksB bnd l₂ := by
  induction l₁ with
  | nil => simp [blocksB]
  | cons p t ih => simp [blocksB, ih]

theorem blockB_eq_lastEB (bnd : Bytes) (p : Bytes × Bytes) :
    blockB bnd p = lastEB bnd p ++ [13, 10] := by
  simp [blockB, lastEB, crlf2]

theorem encodeEOF_decomp (bnd : Bytes) (init : List (Bytes × Bytes)) (p : Bytes × Bytes) :
    encodeEOF bnd (init ++ [p]) = blocksB bnd init ++ lastEB bnd p := by
  rw [encodeEOF, blocksB_append]
  have h1 : blocksB bnd [p] = lastEB bnd p ++ [13, 10] := by
    simp [blocksB, blockB_eq_lastEB]
  rw [h1, List.length_append, List.length_append, List.length_cons, List.length_cons,
    List.length_nil]
  have h2 : (blocksB bnd init).length + ((lastEB bnd p).length + (0 + 1 + 1)) - 2
      = (blocksB bnd init).length + (lastEB bnd p).length := by omega
  rw [h2, ← List.length_append, ← List.append_assoc, List.take_left]

theorem markerB_prefix_closeMB (bnd : Bytes) : markerB bnd <+: closeMB bnd := by
  rw [closeMB]
  exact List.prefix_append _ _

theorem markerB_prefix_blockB (bnd : Bytes) (p : Bytes × Bytes) :
    markerB bnd <+: blockB bnd p := by
  simp only [blockB, hdrB, List.append_assoc]
  exact List.prefix_append _ _

theorem markerB_prefix_lastEB (bnd : Bytes) (p : Bytes × Bytes) :
    markerB bnd <+: lastEB bnd p := by
  simp only [lastEB, hdrB, List.append_assoc]
  exact List.prefix_append _ _

theorem markerB_prefix_run (bnd : Bytes) (rem : List (Bytes × Bytes)) {X : Bytes}
    (hX : markerB bnd <+: X) : markerB bnd <+: blocksB bnd rem ++ X := by
  cases rem with
  | nil => simpa [blocksB] using hX
  | cons p t =>
    simp only [blocksB, List.append_assoc]
    exact (markerB_prefix_blockB bnd p).trans (List.prefix_append _ _)

/-! ## One iteration of the parse loop -/

theorem parseLoop_step {B bb : Bytes} {e fuel : Nat} {acc : Parts} {pos he : Nat}
    (hlt : pos < e) (hcrlf : findFrom B crlf2 pos = some he) :
    parseLoop B bb e (fuel + 1) acc (some pos)
      = parseLoop B bb e fuel
          (match findContentId (jsSlice B ((pos : Int) + bb.length + 2) (he : Int)) with
           | some cid =>
             insertPart acc cid (jsSlice B ((he : Int) + 4)
               (match findFrom B bb (he + 4) with
                | some nb => (nb : Int) - 4
                | none => (e : Int) - 2))
           | none => acc)
          (findFrom B bb (he + 4)) := by
  rw [parseLoop, if_pos hlt, hcrlf]

theorem jsSlice_extract' {B P X R : Bytes} (hB : B = P ++ X ++ R) {a b : Int}
    (ha : a = (P.length : Int)) (hb : b = ((P.length + X.length : Nat) : Int)) :
    jsSlice B a b = X := by
  rw [ha, hb]
  exact jsSlice_extract hB

/-- Master induction for a buffer terminated by the explicit closing
marker: starting at the head of the remaining well-formed blocks, the loop
appends exactly those parts to the accumulator. -/
theorem parseLoop_close (bnd : Bytes) :
    ∀ (rem : List (Bytes × Bytes)) (B pre : Bytes) (acc : Parts) (e fuel : Nat),
      B = pre ++ blocksB bnd rem ++ closeMB bnd →
      e = pre.length + (blocksB bnd rem).length →
      (∀ p ∈ rem, GoodPart bnd p) →
      (rem.map Prod.fst).Nodup →
      (∀ p ∈ rem, ∀ q ∈ acc, q.1 ≠ p.1) →
      rem.length < fuel →
      parseLoop B (markerB bnd) e fuel acc (some pre.length) = acc ++ rem
  | [], B, pre, acc, e, fuel => by
    intro hB he _ _ _ hfuel
    have h0 : (blocksB bnd ([] : List (Bytes × Bytes))).length = 0 := by simp [blocksB]
    cases fuel with
    | zero => omega
    | succ f =>
      rw [parseLoop, if_neg (by omega)]
      simp
  | p :: rest, B, pre, acc, e, fuel => by
    intro hB he hgood hnodup hdisj hfuel
    obtain ⟨hne, hgt, hhdr, hmk⟩ := hgood p (List.mem_cons_self p rest)
    cases fuel with
    | zero => omega
    | succ f =>
      have hlh := hdrB_length bnd p.1
      have hlb := blockB_length bnd p
      have hlm := markerB_length bnd
      have hcl : crlf2.length = 4 := rfl
      have hlen_e : e = pre.length + (blockB bnd p).length + (blocksB bnd rest).length := by
        rw [he, blocksB_cons, List.length_append]
        omega
      have hocc_crlf : crlf2 <+: B.drop (pre.length + (hdrB bnd p.1).length) := by
        have hdec : B = (pre ++ hdrB bnd p.1) ++ crlf2
            ++ (p.2 ++ crlf2 ++ blocksB bnd rest ++ closeMB bnd) := by
          rw [hB]
          simp only [blocksB_cons, blockB, List.append_assoc]
        have h := occ_of_decomp hdec
        rwa [List.length_append] at h
      have hmin_crlf : ∀ k, pre.length ≤ k → k < pre.length + (hdrB bnd p.1).length →
          ¬ crlf2 <+: B.drop k := by
        intro k hk1 hk2
        have hdec : B = pre ++ (hdrB bnd p.1 ++ crlf2)
            ++ (p.2 ++ crlf2 ++ blocksB bnd rest ++ closeMB bnd) := by
          rw [hB]
          simp only [blocksB_cons, blockB, List.append_assoc]
        have hw := no_occ_of_window hdec (j := k - pre.length)
          (by rw [List.length_append, hcl]; omega)
          (hhdr (k - pre.length) (by omega))
        have hkk : pre.length + (k - pre.length) = k := by omega
        rwa [hkk] at hw
      have hfind_crlf : findFrom B crlf2 pre.length
          = some (pre.length + (hdrB bnd p.1).length) :=
        findFrom_some_of crlf2_ne_nil (by omega) hocc_crlf hmin_crlf
      have hheaders : jsSlice B ((pre.length : Int) + (markerB bnd).length + 2)
          ((pre.length + (hdrB bnd p.1).length : Nat) : Int) = cidPre ++ (p.1 ++ [62]) := by
        apply jsSlice_extract' (P := pre ++ (markerB bnd ++ [13, 10]))
          (X := cidPre ++ (p.1 ++ [62]))
          (R := crlf2 ++ (p.2 ++ (crlf2 ++ (blocksB bnd rest ++ closeMB bnd))))
        · rw [hB]
          simp only [blocksB_cons, blockB, hdrB, List.append_assoc]
        · simp only [List.length_append, markerB_length, List.length_cons, List.length_nil]
          push_cast
          omega
        · simp only [List.length_append, markerB_length, cidPre_length, hdrB_length,
            List.length_cons, List.length_nil]
          push_cast
          omega
      have hcid : findContentId (cidPre ++ (p.1 ++ [62])) = some p.1 :=
        findContentId_of_match (matchCIDAt_encode hne hgt)
      have hocc_mk : markerB bnd <+: B.drop (pre.length + (blockB bnd p).length) := by
        have hdec : B = (pre ++ blockB bnd p) ++ (blocksB bnd rest ++ closeMB bnd) := by
          rw [hB]
          simp only [blocksB_cons, List.append_assoc]
        have hdrop : B.drop ((pre ++ blockB bnd p).length)
            = blocksB bnd rest ++ closeMB bnd := by
          rw [hdec]
          exact List.drop_left _ _
        rw [List.length_append] at hdrop
        rw [hdrop]
        exact markerB_prefix_run bnd rest (markerB_prefix_closeMB bnd)
      have hmin_mk : ∀ k, pre.length + (hdrB bnd p.1).length + 4 ≤ k →
          k < pre.length + (blockB bnd p).length → ¬ markerB bnd <+: B.drop k := by
        intro k hk1 hk2
        obtain ⟨Q, hQ⟩ := markerB_prefix_run bnd rest (markerB_prefix_closeMB bnd)
        have hdec : B = (pre ++ (hdrB bnd p.1 ++ crlf2))
            ++ (p.2 ++ (crlf2 ++ markerB bnd)) ++ Q := by
          rw [hB]
          simp only [blocksB_cons, blockB, List.append_assoc]
          rw [← hQ]
        have hwfit : (k - (pre.length + (hdrB bnd p.1).length + 4)) + (markerB bnd).length
            ≤ (p.2 ++ (crlf2 ++ markerB bnd)).length := by
          simp only [List.length_append, hcl]
          omega
        have hno : ¬ markerB bnd
            <+: (p.2 ++ (crlf2 ++ markerB bnd)).drop
              (k - (pre.length + (hdrB bnd p.1).length + 4)) := by
          have hmk' := hmk ((hdrB bnd p.1).length + 4 + (k - (pre.length + (hdrB bnd p.1).length + 4)))
            (by omega) (by omega)
          have hsplit : blockB bnd p ++ markerB bnd
              = (hdrB bnd p.1 ++ crlf2) ++ (p.2 ++ (crlf2 ++ markerB bnd)) := by
            simp only [blockB, List.append_assoc]
          have hidx : (hdrB bnd p.1).length + 4 + (k - (pre.length + (hdrB bnd p.1).length + 4))
              = (hdrB bnd p.1 ++ crlf2).length + (k - (pre.length + (hdrB bnd p.1).length + 4)) := by
            rw [List.length_append, hcl]
          rw [hsplit, hidx, List.drop_append] at hmk'
          exact hmk'
        have hw := no_occ_of_window hdec hwfit hno
        have hkk : (pre ++ (hdrB bnd p.1 ++ crlf2)).length
            + (k - (pre.length + (hdrB bnd p.1).length + 4)) = k := by
          simp only [List.length_append, hcl]
          omega
        rwa [hkk] at hw
      have hfind_mk : findFrom B (markerB bnd) (pre.length + (hdrB bnd p.1).length + 4)
          = some (pre.length + (blockB bnd p).length) :=
        findFrom_some_of (markerB_ne_nil bnd) (by omega) hocc_mk hmin_mk
      have hcontent : jsSlice B (((pre.length + (hdrB bnd p.1).length : Nat) : Int) + 4)
          (((pre.length + (blockB bnd p).length : Nat) : Int) - 4) = p.2 := by
        apply jsSlice_extract' (P := pre ++ (hdrB bnd p.1 ++ crlf2)) (X := p.2)
          (R := crlf2 ++ (blocksB bnd rest ++ closeMB bnd))
        · rw [hB]
          simp only [blocksB_cons, blockB, List.append_assoc]
        · simp only [List.length_append, hcl]
          push_cast
          omega
        · simp only [List.length_append, hcl, blockB_length, hdrB_length]
          push_cast
          omega
      have hacc : ∀ q ∈ acc, q.1 ≠ p.1 := fun q hq =>
        hdisj p (List.mem_cons_self p rest) q hq
      have hnd := hnodup
      rw [List.map_cons, List.nodup_cons] at hnd
      have hdisj' : ∀ p' ∈ rest, ∀ q ∈ acc ++ [(p.1, p.2)], q.1 ≠ p'.1 := by
        intro p' hp' q hq
        rcases List.mem_append.mp hq with hq | hq
        · exact hdisj p' (List.mem_cons_of_mem p hp') q hq
        · have hq' := List.mem_singleton.mp hq
          subst hq'
          intro hc
          apply hnd.1
          rw [hc]
          exact List.mem_map_of_mem Prod.fst hp'
      have hIH := parseLoop_close bnd rest B (pre ++ blockB bnd p) (acc ++ [(p.1, p.2)]) e f
        (by rw [hB]; simp only [blocksB_cons, List.append_assoc])
        (by rw [hlen_e, List.length_append])
        (fun q hq => hgood q (List.mem_cons_of_mem p hq))
        hnd.2 hdisj' (by simp only [List.length_cons] at hfuel; omega)
      rw [List.length_append] at hIH
      have hstep := @parseLoop_step B (markerB bnd) e f acc pre.length
        (pre.length + (hdrB bnd p.1).length) (by omega) hfind_crlf
      rw [hstep]
      simp only [hheaders, hcid, hfind_mk, hcontent]
      rw [insertPart_not_mem hacc, hIH, List.append_assoc]
      rfl

theorem blocksB_length_ge (bnd : Bytes) (ps : List (Bytes × Bytes)) :
    ps.length ≤ (blocksB bnd ps).length := by
  induction ps with
  | nil => simp [blocksB]
  | cons p t ih =>
    rw [blocksB_cons, List.length_append, List.length_cons, blockB_length]
    omega

/-- In a well-formed closed buffer, the closing marker does not occur
anywhere strictly before its final position. -/
theorem no_closeMB_before (bnd : Bytes) :
    ∀ (rem : List (Bytes × Bytes)) (B pre : Bytes),
      B = pre ++ blocksB bnd rem ++ closeMB bnd →
      (∀ p ∈ rem, GoodPart bnd p) →
      ∀ j, pre.length ≤ j → j < pre.length + (blocksB bnd rem).length →
        ¬ closeMB bnd <+: B.drop j
  | [], B, pre => by
    intro _ _ j _ hj2
    have h0 : (blocksB bnd ([] : List (Bytes × Bytes))).length = 0 := by simp [blocksB]
    omega
  | p :: rest, B, pre => by
    intro hB hgood j hj1 hj2
    obtain ⟨hne, hgt, hhdr, hmk⟩ := hgood p (List.mem_cons_self p rest)
    have hlb := blockB_length bnd p
    by_cases hjin : j < pre.length + (blockB bnd p).length
    · rcases Nat.eq_or_lt_of_le hj1 with hj | hj
      · subst hj
        intro hc
        have hdrop : B.drop pre.length = markerB bnd
            ++ ([13, 10] ++ (cidPre ++ (p.1 ++ ([62] ++ (crlf2 ++ (p.2 ++ (crlf2
              ++ (blocksB bnd rest ++ closeMB bnd)))))))) := by
          have hB' : B = pre ++ (markerB bnd
              ++ ([13, 10] ++ (cidPre ++ (p.1 ++ ([62] ++ (crlf2 ++ (p.2 ++ (crlf2
                ++ (blocksB bnd rest ++ closeMB bnd))))))))) := by
            rw [hB]
            simp only [blocksB_cons, blockB, hdrB, List.append_assoc]
          rw [hB']
          exact List.drop_left _ _
        rw [closeMB, hdrop, List.prefix_append_right_inj] at hc
        simp only [List.cons_append, List.nil_append] at hc
        exact absurd (List.cons_prefix_cons.mp hc).1 (by decide)
      · intro hc
        have hcm : markerB bnd <+: B.drop j := (markerB_prefix_closeMB bnd).trans hc
        obtain ⟨Q, hQ⟩ := markerB_prefix_run bnd rest (markerB_prefix_closeMB bnd)
        have hdec : B = pre ++ (blockB bnd p ++ markerB bnd) ++ Q := by
          rw [hB]
          simp only [blocksB_cons, List.append_assoc]
          rw [← hQ]
        have hwfit : (j - pre.length) + (markerB bnd).length
            ≤ (blockB bnd p ++ markerB bnd).length := by
          rw [List.length_append]
          omega
        have hno : ¬ markerB bnd <+: (blockB bnd p ++ markerB bnd).drop (j - pre.length) :=
          hmk (j - pre.length) (by omega) (by omega)
        have hw := no_occ_of_window hdec hwfit hno
        have hkk : pre.length + (j - pre.length) = j := by omega
        rw [hkk] at hw
        exact hw hcm
    · have hblen : (blocksB bnd (p :: rest)).length
          = (blockB bnd p).length + (blocksB bnd rest).length := by
        rw [blocksB_cons, List.length_append]
      exact no_closeMB_before bnd rest B (pre ++ blockB bnd p)
        (by rw [hB]; simp only [blocksB_cons, List.append_assoc])
        (fun q hq => hgood q (List.mem_cons_of_mem p hq))
        j (by rw [List.length_append]; omega)
        (by rw [List.length_append]; omega)

/-- Decoding a well-formed multipart buffer terminated by the explicit
closing marker recovers exactly the encoded parts. -/
theorem parse_encodeClose (bnd : Bytes) (ps : List (Bytes × Bytes))
    (hgood : ∀ p ∈ ps, GoodPart bnd p) (hnodup : (ps.map Prod.fst).Nodup) :
    parseMultipartResponse (encodeClose bnd ps) bnd = ps := by
  have hB : encodeClose bnd ps = blocksB bnd ps ++ closeMB bnd := rfl
  have hend : findFrom (encodeClose bnd ps) (closeMB bnd) 0 = some (blocksB bnd ps).length := by
    apply findFrom_some_of (closeMB_ne_nil bnd) (Nat.zero_le _)
    · rw [hB, List.drop_left]
    · intro k _ hk
      exact no_closeMB_before bnd ps (encodeClose bnd ps) []
        (by rw [hB]; simp) hgood k (Nat.zero_le k) (by simpa using hk)
  have hpos0 : findFrom (encodeClose bnd ps) (markerB bnd) 0 = some 0 := by
    apply findFrom_some_of (markerB_ne_nil bnd) (Nat.le_refl 0)
    · rw [List.drop_zero, hB]
      exact markerB_prefix_run bnd ps (markerB_prefix_closeMB bnd)
    · intro k h1 h2
      omega
  have hmB : ([45, 45] : Bytes) ++ bnd = markerB bnd := rfl
  have hcB : markerB bnd ++ [45, 45] = closeMB bnd := rfl
  simp only [parseMultipartResponse, hmB, hcB, hend, hpos0, Option.getD_some]
  have := parseLoop_close bnd ps (encodeClose bnd ps) [] [] (blocksB bnd ps).length
    ((encodeClose bnd ps).length + 1)
    (by rw [hB]; simp) (by simp) hgood hnodup (by simp)
    (by
      have h1 := blocksB_length_ge bnd ps
      have h2 : (encodeClose bnd ps).length = (blocksB bnd ps).length + (closeMB bnd).length := by
        rw [hB, List.length_append]
      omega)
  simpa using this

theorem parseLoop_none (buffer bb : Bytes) (e fuel : Nat) (acc : Parts) :
    parseLoop buffer bb e fuel acc none = acc := by
  cases fuel <;> rfl

/-- In a well-formed buffer that ends without a closing marker, the closing
marker occurs nowhere. -/
theorem no_closeMB_eof (bnd : Bytes) (pl : Bytes × Bytes) (hgoodl : GoodPart bnd pl) :
    ∀ (rem : List (Bytes × Bytes)) (B pre : Bytes),
      B = pre ++ blocksB bnd rem ++ lastEB bnd pl →
      (∀ p ∈ rem, GoodPart bnd p) →
      ∀ j, pre.length ≤ j → ¬ closeMB bnd <+: B.drop j
  | [], B, pre => by
    intro hB _ j hj1 hc
    obtain ⟨hne, hgt, hhdr, hmk⟩ := hgoodl
    have hlb := blockB_length bnd pl
    have hle := lastEB_length bnd pl
    have hB0 : B = pre ++ lastEB bnd pl := by
      rw [hB]
      simp [blocksB]
    have hBlen : B.length = pre.length + (lastEB bnd pl).length := by
      rw [hB0, List.length_append]
    have hjlt : j < B.length := occ_pos_lt (closeMB_ne_nil bnd) hc
    rcases Nat.eq_or_lt_of_le hj1 with hj | hj
    · subst hj
      have hdrop : B.drop pre.length = markerB bnd
          ++ ([13, 10] ++ (cidPre ++ (pl.1 ++ ([62] ++ (crlf2 ++ (pl.2 ++ [13, 10])))))) := by
        have hB' : B = pre ++ (markerB bnd
            ++ ([13, 10] ++ (cidPre ++ (pl.1 ++ ([62] ++ (crlf2 ++ (pl.2 ++ [13, 10]))))))) := by
          rw [hB0]
          simp only [lastEB, hdrB, List.append_assoc]
        rw [hB']
        exact List.drop_left _ _
      rw [closeMB, hdrop, List.prefix_append_right_inj] at hc
      simp only [List.cons_append, List.nil_append] at hc
      exact absurd (List.cons_prefix_cons.mp hc).1 (by decide)
    · have hcm : markerB bnd <+: B.drop j := (markerB_prefix_closeMB bnd).trans hc
      have hdrop : B.drop j = (lastEB bnd pl).drop (j - pre.length) := by
        obtain ⟨j', rfl⟩ : ∃ j', j = pre.length + j' := ⟨j - pre.length, by omega⟩
        rw [hB0, List.drop_append, Nat.add_sub_cancel_left]
      rw [hdrop] at hcm
      have hpfx : (lastEB bnd pl).drop (j - pre.length)
          <+: (blockB bnd pl ++ markerB bnd).drop (j - pre.length) := by
        apply List.IsPrefix.drop
        have h1 : lastEB bnd pl <+: blockB bnd pl := by
          rw [blockB_eq_lastEB]
          exact List.prefix_append _ _
        exact h1.trans (List.prefix_append _ _)
      have hno := hmk (j - pre.length) (by omega) (by omega)
      exact hno (hcm.trans hpfx)
  | p :: rest, B, pre => by
    intro hB hgood j hj1 hc
    obtain ⟨hne, hgt, hhdr, hmk⟩ := hgood p (List.mem_cons_self p rest)
    have hlb := blockB_length bnd p
    by_cases hjin : j < pre.length + (blockB bnd p).length
    · rcases Nat.eq_or_lt_of_le hj1 with hj | hj
      · subst hj
        have hdrop : B.drop pre.length = markerB bnd
            ++ ([13, 10] ++ (cidPre ++ (p.1 ++ ([62] ++ (crlf2 ++ (p.2 ++ (crlf2
              ++ (blocksB bnd rest ++ lastEB bnd pl)))))))) := by
          have hB' : B = pre ++ (markerB bnd
              ++ ([13, 10] ++ (cidPre ++ (p.1 ++ ([62] ++ (crlf2 ++ (p.2 ++ (crlf2
                ++ (blocksB bnd rest ++ lastEB bnd pl))))))))) := by
            rw [hB]
            simp only [blocksB_cons, blockB, hdrB, List.append_assoc]
          rw [hB']
          exact List.drop_left _ _
        rw [closeMB, hdrop, List.prefix_append_right_inj] at hc
        simp only [List.cons_append, List.nil_append] at hc
        exact absurd (List.cons_prefix_cons.mp hc).1 (by decide)
      · have hcm : markerB bnd <+: B.drop j := (markerB_prefix_closeMB bnd).trans hc
        obtain ⟨Q, hQ⟩ := markerB_prefix_run bnd rest (markerB_prefix_lastEB bnd pl)
        have hdec : B = pre ++ (blockB bnd p ++ markerB bnd) ++ Q := by
          rw [hB]
          simp only [blocksB_cons, List.append_assoc]
          rw [← hQ]
        have hwfit : (j - pre.length) + (markerB bnd).length
            ≤ (blockB bnd p ++ markerB bnd).length := by
          rw [List.length_append]
          omega
        have hno : ¬ markerB bnd <+: (blockB bnd p ++ markerB bnd).drop (j - pre.length) :=
          hmk (j - pre.length) (by omega) (by omega)
        have hw := no_occ_of_window hdec hwfit hno
        have hkk : pre.length + (j - pre.length) = j := by omega
        rw [hkk] at hw
        exact hw hcm
    · exact no_closeMB_eof bnd pl hgoodl rest B (pre ++ blockB bnd p)
        (by rw [hB]; simp only [blocksB_cons, List.append_assoc])
        (fun q hq => hgood q (List.mem_cons_of_mem p hq))
        j (by rw [List.length_append]; omega) hc

/-- Master induction for a buffer that ends without a closing marker: the
loop consumes the remaining blocks and the final `\r\n`-terminated part. -/
theorem parseLoop_eof (bnd : Bytes) (pl : Bytes × Bytes) (hgoodl : GoodPart bnd pl) :
    ∀ (rem : List (Bytes × Bytes)) (B pre : Bytes) (acc : Parts) (e fuel : Nat),
      B = pre ++ blocksB bnd rem ++ lastEB bnd pl →
      e = B.length →
      (∀ p ∈ rem, GoodPart bnd p) →
      ((rem ++ [pl]).map Prod.fst).Nodup →
      (∀ p ∈ rem ++ [pl], ∀ q ∈ acc, q.1 ≠ p.1) →
      rem.length < fuel →
      parseLoop B (markerB bnd) e fuel acc (some pre.length) = acc ++ rem ++ [pl]
  | [], B, pre, acc, e, fuel => by
    intro hB he _ _ hdisj hfuel
    obtain ⟨hne, hgt, hhdr, hmk⟩ := hgoodl
    cases fuel with
    | zero => omega
    | succ f =>
      have hlh := hdrB_length bnd pl.1
      have hlb := blockB_length bnd pl
      have hle := lastEB_length bnd pl
      have hlm := markerB_length bnd
      have hcl : crlf2.length = 4 := rfl
      have hB0 : B = pre ++ lastEB bnd pl := by
        rw [hB]
        simp [blocksB]
      have hBlen : B.length = pre.length + (lastEB bnd pl).length := by
        rw [hB0, List.length_append]
      have hocc_crlf : crlf2 <+: B.drop (pre.length + (hdrB bnd pl.1).length) := by
        have hdec : B = (pre ++ hdrB bnd pl.1) ++ crlf2 ++ (pl.2 ++ [13, 10]) := by
          rw [hB0]
          simp only [lastEB, List.append_assoc]
        have h := occ_of_decomp hdec
        rwa [List.length_append] at h
      have hmin_crlf : ∀ k, pre.length ≤ k → k < pre.length + (hdrB bnd pl.1).length →
          ¬ crlf2 <+: B.drop k := by
        intro k hk1 hk2
        have hdec : B = pre ++ (hdrB bnd pl.1 ++ crlf2) ++ (pl.2 ++ [13, 10]) := by
          rw [hB0]
          simp only [lastEB, List.append_assoc]
        have hw := no_occ_of_window hdec (j := k - pre.length)
          (by rw [List.length_append, hcl]; omega)
          (hhdr (k - pre.length) (by omega))
        have hkk : pre.length + (k - pre.length) = k := by omega
        rwa [hkk] at hw
      have hfind_crlf : findFrom B crlf2 pre.length
          = some (pre.length + (hdrB bnd pl.1).length) :=
        findFrom_some_of crlf2_ne_nil (by omega) hocc_crlf hmin_crlf
      have hheaders : jsSlice B ((pre.length : Int) + (markerB bnd).length + 2)
          ((pre.length + (hdrB bnd pl.1).length : Nat) : Int) = cidPre ++ (pl.1 ++ [62]) := by
        apply jsSlice_extract' (P := pre ++ (markerB bnd ++ [13, 10]))
          (X := cidPre ++ (pl.1 ++ [62])) (R := crlf2 ++ (pl.2 ++ [13, 10]))
        · rw [hB0]
          simp only [lastEB, hdrB, List.append_assoc]
        · simp only [List.length_append, markerB_length, List.length_cons, List.length_nil]
          push_cast
          omega
        · simp only [List.length_append, markerB_length, cidPre_length, hdrB_length,
            List.length_cons, List.length_nil]
          push_cast
          omega
      have hcid : findContentId (cidPre ++ (pl.1 ++ [62])) = some pl.1 :=
        findContentId_of_match (matchCIDAt_encode hne hgt)
      have hfind_mk : findFrom B (markerB bnd)
          (pre.length + (hdrB bnd pl.1).length + 4) = none := by
        apply findFrom_none_of
        intro k hk hocc
        obtain ⟨j', rfl⟩ : ∃ j', k = (pre.length + (hdrB bnd pl.1).length + 4) + j' :=
          ⟨k - (pre.length + (hdrB bnd pl.1).length + 4), by omega⟩
        have hdec : B = (pre ++ (hdrB bnd pl.1 ++ crlf2)) ++ (pl.2 ++ [13, 10]) := by
          rw [hB0]
          simp only [lastEB, List.append_assoc]
        have hplen : (pre ++ (hdrB bnd pl.1 ++ crlf2)).length
            = pre.length + (hdrB bnd pl.1).length + 4 := by
          simp only [List.length_append, hcl]
          omega
        have hdropk : B.drop (pre.length + (hdrB bnd pl.1).length + 4 + j')
            = (pl.2 ++ [13, 10]).drop j' := by
          rw [hdec, ← hplen, List.drop_append]
        rw [hdropk] at hocc
        by_cases hj2 : j' < pl.2.length + 2
        · have hpfx2 : pl.2 ++ [13, 10] <+: pl.2 ++ (crlf2 ++ markerB bnd) := by
            rw [List.prefix_append_right_inj]
            exact ⟨[13, 10] ++ markerB bnd, by simp [crlf2]⟩
          have hocc2 : markerB bnd <+: (pl.2 ++ (crlf2 ++ markerB bnd)).drop j' :=
            hocc.trans (hpfx2.drop j')
          have hsplit : blockB bnd pl ++ markerB bnd
              = (hdrB bnd pl.1 ++ crlf2) ++ (pl.2 ++ (crlf2 ++ markerB bnd)) := by
            simp only [blockB, List.append_assoc]
          have hmk' := hmk ((hdrB bnd pl.1).length + 4 + j') (by omega) (by omega)
          have hidx : (hdrB bnd pl.1).length + 4 + j'
              = (hdrB bnd pl.1 ++ crlf2).length + j' := by
            rw [List.length_append, hcl]
          rw [hsplit, hidx, List.drop_append] at hmk'
          exact hmk' hocc2
        · have hlen2 : ((pl.2 ++ [13, 10]).drop j').length = pl.2.length + 2 - j' := by
            simp [List.length_drop, List.length_append]
          have hml := hocc.length_le
          rw [hlen2, hlm] at hml
          omega
      have hcontent : jsSlice B (((pre.length + (hdrB bnd pl.1).length : Nat) : Int) + 4)
          ((e : Int) - 2) = pl.2 := by
        apply jsSlice_extract' (P := pre ++ (hdrB bnd pl.1 ++ crlf2)) (X := pl.2)
          (R := [13, 10])
        · rw [hB0]
          simp only [lastEB, List.append_assoc]
        · simp only [List.length_append, hcl]
          push_cast
          omega
        · rw [he, hBlen]
          simp only [List.length_append, hcl, lastEB_length, hdrB_length]
          push_cast
          omega
      have hacc : ∀ q ∈ acc, q.1 ≠ pl.1 := fun q hq =>
        hdisj pl (by simp) q hq
      have hstep := @parseLoop_step B (markerB bnd) e f acc pre.length
        (pre.length + (hdrB bnd pl.1).length) (by omega) hfind_crlf
      rw [hstep]
      simp only [hheaders, hcid, hfind_mk, hcontent]
      rw [insertPart_not_mem hacc, parseLoop_none]
      simp
  | p :: rest, B, pre, acc, e, fuel => by
    intro hB he hgood hnodup hdisj hfuel
    obtain ⟨hne, hgt, hhdr, hmk⟩ := hgood p (List.mem_cons_self p rest)
    cases fuel with
    | zero => omega
    | succ f =>
      have hlh := hdrB_length bnd p.1
      have hlb := blockB_length bnd p
      have hle := lastEB_length bnd pl
      have hlm := markerB_length bnd
      have hcl : crlf2.length = 4 := rfl
      have hBlen : B.length = pre.length + ((blockB bnd p).length
          + ((blocksB bnd rest).length + (lastEB bnd pl).length)) := by
        rw [hB, blocksB_cons]
        simp only [List.length_append]
        omega
      have hocc_crlf : crlf2 <+: B.drop (pre.length + (hdrB bnd p.1).length) := by
        have hdec : B = (pre ++ hdrB bnd p.1) ++ crlf2
            ++ (p.2 ++ crlf2 ++ blocksB bnd rest ++ lastEB bnd pl) := by
          rw [hB]
          simp only [blocksB_cons, blockB, List.append_assoc]
        have h := occ_of_decomp hdec
        rwa [List.length_append] at h
      have hmin_crlf : ∀ k, pre.length ≤ k → k < pre.length + (hdrB bnd p.1).length →
          ¬ crlf2 <+: B.drop k := by
        intro k hk1 hk2
        have hdec : B = pre ++ (hdrB bnd p.1 ++ crlf2)
            ++ (p.2 ++ crlf2 ++ blocksB bnd rest ++ lastEB bnd pl) := by
          rw [hB]
          simp only [blocksB_cons, blockB, List.append_assoc]
        have hw := no_occ_of_window hdec (j := k - pre.length)
          (by rw [List.length_append, hcl]; omega)
          (hhdr (k - pre.length) (by omega))
        have hkk : pre.length + (k - pre.length) = k := by omega
        rwa [hkk] at hw
      have hfind_crlf : findFrom B crlf2 pre.length
          = some (pre.length + (hdrB bnd p.1).length) :=
        findFrom_some_of crlf2_ne_nil (by omega) hocc_crlf hmin_crlf
      have hheaders : jsSlice B ((pre.length : Int) + (markerB bnd).length + 2)
          ((pre.length + (hdrB bnd p.1).length : Nat) : Int) = cidPre ++ (p.1 ++ [62]) := by
        apply jsSlice_extract' (P := pre ++ (markerB bnd ++ [13, 10]))
          (X := cidPre ++ (p.1 ++ [62]))
          (R := crlf2 ++ (p.2 ++ (crlf2 ++ (blocksB bnd rest ++ lastEB bnd pl))))
        · rw [hB]
          simp only [blocksB_cons, blockB, hdrB, List.append_assoc]
        · simp only [List.length_append, markerB_length, List.length_cons, List.length_nil]
          push_cast
          omega
        · simp only [List.length_append, markerB_length, cidPre_length, hdrB_length,
            List.length_cons, List.length_nil]
          push_cast
          omega
      have hcid : findContentId (cidPre ++ (p.1 ++ [62])) = some p.1 :=
        findContentId_of_match (matchCIDAt_encode hne hgt)
      have hocc_mk : markerB bnd <+: B.drop (pre.length + (blockB bnd p).length) := by
        have hdec : B = (pre ++ blockB bnd p) ++ (blocksB bnd rest ++ lastEB bnd pl) := by
          rw [hB]
          simp only [blocksB_cons, List.append_assoc]
        have hdrop : B.drop ((pre ++ blockB bnd p).length)
            = blocksB bnd rest ++ lastEB bnd pl := by
          rw [hdec]
          exact List.drop_left _ _
        rw [List.length_append] at hdrop
        rw [hdrop]
        exact markerB_prefix_run bnd rest (markerB_prefix_lastEB bnd pl)
      have hmin_mk : ∀ k, pre.length + (hdrB bnd p.1).length + 4 ≤ k →
          k < pre.length + (blockB bnd p).length → ¬ markerB bnd <+: B.drop k := by
        intro k hk1 hk2
        obtain ⟨Q, hQ⟩ := markerB_prefix_run bnd rest (markerB_prefix_lastEB bnd pl)
        have hdec : B = (pre ++ (hdrB bnd p.1 ++ crlf2))
            ++ (p.2 ++ (crlf2 ++ markerB bnd)) ++ Q := by
          rw [hB]
          simp only [blocksB_cons, blockB, List.append_assoc]
          rw [← hQ]
        have hwfit : (k - (pre.length + (hdrB bnd p.1).length + 4)) + (markerB bnd).length
            ≤ (p.2 ++ (crlf2 ++ markerB bnd)).length := by
          simp only [List.length_append, hcl]
          omega
        have hno : ¬ markerB bnd
            <+: (p.2 ++ (crlf2 ++ markerB bnd)).drop
              (k - (pre.length + (hdrB bnd p.1).length + 4)) := by
          have hmk' := hmk ((hdrB bnd p.1).length + 4
              + (k - (pre.length + (hdrB bnd p.1).length + 4)))
            (by omega) (by omega)
          have hsplit : blockB bnd p ++ markerB bnd
              = (hdrB bnd p.1 ++ crlf2) ++ (p.2 ++ (crlf2 ++ markerB bnd)) := by
            simp only [blockB, List.append_assoc]
          have hidx : (hdrB bnd p.1).length + 4
              + (k - (pre.length + (hdrB bnd p.1).length + 4))
              = (hdrB bnd p.1 ++ crlf2).length
                + (k - (pre.length + (hdrB bnd p.1).length + 4)) := by
            rw [List.length_append, hcl]
          rw [hsplit, hidx, List.drop_append] at hmk'
          exact hmk'
        have hw := no_occ_of_window hdec hwfit hno
        have hkk : (pre ++ (hdrB bnd p.1 ++ crlf2)).length
            + (k - (pre.length + (hdrB bnd p.1).length + 4)) = k := by
          simp only [List.length_append, hcl]
          omega
        rwa [hkk] at hw
      have hfind_mk : findFrom B (markerB bnd) (pre.length + (hdrB bnd p.1).length + 4)
          = some (pre.length + (blockB bnd p).length) :=
        findFrom_some_of (markerB_ne_nil bnd) (by omega) hocc_mk hmin_mk
      have hcontent : jsSlice B (((pre.length + (hdrB bnd p.1).length : Nat) : Int) + 4)
          (((pre.length + (blockB bnd p).length : Nat) : Int) - 4) = p.2 := by
        apply jsSlice_extract' (P := pre ++ (hdrB bnd p.1 ++ crlf2)) (X := p.2)
          (R := crlf2 ++ (blocksB bnd rest ++ lastEB bnd pl))
        · rw [hB]
          simp only [blocksB_cons, blockB, List.append_assoc]
        · simp only [List.length_append, hcl]
          push_cast
          omega
        · simp only [List.length_append, hcl, blockB_length, hdrB_length]
          push_cast
          omega
      have hacc : ∀ q ∈ acc, q.1 ≠ p.1 := fun q hq =>
        hdisj p (by simp) q hq
      have hnd := hnodup
      simp only [List.cons_append, List.map_cons, List.nodup_cons] at hnd
      have hdisj' : ∀ p' ∈ rest ++ [pl], ∀ q ∈ acc ++ [(p.1, p.2)], q.1 ≠ p'.1 := by
        intro p' hp' q hq
        rcases List.mem_append.mp hq with hq | hq
        · exact hdisj p' (by simpa using Or.inr hp') q hq
        · have hq' := List.mem_singleton.mp hq
          subst hq'
          intro hc
          apply hnd.1
          rw [hc]
          exact List.mem_map_of_mem Prod.fst hp'
      have hIH := parseLoop_eof bnd pl hgoodl rest B (pre ++ blockB bnd p)
        (acc ++ [(p.1, p.2)]) e f
        (by rw [hB]; simp only [blocksB_cons, List.append_assoc]) he
        (fun q hq => hgood q (List.mem_cons_of_mem p hq))
        hnd.2 hdisj' (by simp only [List.length_cons] at hfuel; omega)
      rw [List.length_append] at hIH
      have hstep := @parseLoop_step B (markerB bnd) e f acc pre.length
        (pre.length + (hdrB bnd p.1).length) (by omega) hfind_crlf
      rw [hstep]
      simp only [hheaders, hcid, hfind_mk, hcontent]
      rw [insertPart_not_mem hacc, hIH]
      simp [List.append_assoc]

theorem parse_nil (bnd : Bytes) : parseMultipartResponse [] bnd = [] := by
  have h1 : findFrom ([] : Bytes) (([45, 45] ++ bnd) ++ [45, 45]) 0 = none := by
    apply findFrom_none_of
    intro k _ hc
    rw [List.drop_nil] at hc
    have h := List.prefix_nil.mp hc
    simp at h
  have h2 : findFrom ([] : Bytes) ([45, 45] ++ bnd) 0 = none := by
    apply findFrom_none_of
    intro k _ hc
    rw [List.drop_nil] at hc
    have h := List.prefix_nil.mp hc
    simp at h
  simp only [parseMultipartResponse, h1, h2, Option.getD_none]
  exact parseLoop_none _ _ _ _ _

/-- Decoding a well-formed multipart buffer that ends at end-of-buffer
(final body followed by a single `\r\n`, no closing marker) recovers
exactly the encoded parts. -/
theorem parse_encodeEOF (bnd : Bytes) (ps : List (Bytes × Bytes))
    (hgood : ∀ p ∈ ps, GoodPart bnd p) (hnodup : (ps.map Prod.fst).Nodup) :
    parseMultipartResponse (encodeEOF bnd ps) bnd = ps := by
  rcases List.eq_nil_or_concat ps with rfl | ⟨init, pl, hps⟩
  · have h0 : encodeEOF bnd [] = [] := by simp [encodeEOF, blocksB]
    rw [h0, parse_nil]
  · rw [List.concat_eq_append] at hps
    subst hps
    have hgoodl : GoodPart bnd pl := hgood pl (by simp)
    have hB : encodeEOF bnd (init ++ [pl]) = blocksB bnd init ++ lastEB bnd pl :=
      encodeEOF_decomp bnd init pl
    have hend : findFrom (encodeEOF bnd (init ++ [pl])) (closeMB bnd) 0 = none := by
      apply findFrom_none_of
      intro k _
      exact no_closeMB_eof bnd pl hgoodl init _ []
        (by rw [hB]; simp) (fun q hq => hgood q (List.mem_append_left _ hq))
        k (Nat.zero_le k)
    have hpos0 : findFrom (encodeEOF bnd (init ++ [pl])) (markerB bnd) 0 = some 0 := by
      apply findFrom_some_of (markerB_ne_nil bnd) (Nat.le_refl 0)
      · rw [List.drop_zero, hB]
        exact markerB_prefix_run bnd init (markerB_prefix_lastEB bnd pl)
      · intro k h1 h2
        omega
    have hmB : ([45, 45] : Bytes) ++ bnd = markerB bnd := rfl
    have hcB : markerB bnd ++ [45, 45] = closeMB bnd := rfl
    simp only [parseMultipartResponse, hmB, hcB, hend, hpos0, Option.getD_none]
    have h := parseLoop_eof bnd pl hgoodl init (encodeEOF bnd (init ++ [pl])) [] []
      (encodeEOF bnd (init ++ [pl])).length ((encodeEOF bnd (init ++ [pl])).length + 1)
      (by rw [hB]; simp) rfl
      (fun q hq => hgood q (List.mem_append_left _ hq))
      hnodup
      (by intro p hp q hq; cases hq)
      (by
        have h1 := blocksB_length_ge bnd init
        have h2 : (encodeEOF bnd (init ++ [pl])).length
            = (blocksB bnd init).length + (lastEB bnd pl).length := by
          rw [hB, List.length_append]
        omega)
    simpa using h

/-! ## Loop behavior without a header delimiter, and without Content-IDs -/

theorem parseLoop_stop_of_no_delim {buffer bb : Bytes} {e fuel : Nat} {acc : Parts}
    {pos : Nat} (h : findFrom buffer crlf2 pos = none) :
    parseLoop buffer bb e (fuel + 1) acc (some pos) = acc := by
  rw [parseLoop]
  by_cases hlt : pos < e
  · rw [if_pos hlt, h]
  · rw [if_neg hlt]

theorem jsSlice_drop_prefix (l : Bytes) (a b : Int) (i : Nat) :
    ∃ j, (jsSlice l a b).drop i <+: l.drop j := by
  refine ⟨jsClamp l.length a + i, ?_⟩
  rw [jsSlice]
  have h1 : ((l.take (jsClamp l.length b)).drop (jsClamp l.length a)).drop i
      = (l.take (jsClamp l.length b)).drop (jsClamp l.length a + i) := by
    rw [List.drop_drop]
  rw [h1]
  exact (List.take_prefix _ _).drop _

theorem no_cid_all {buffer : Bytes} (h : ∀ i < buffer.length, matchCIDAt (buffer.drop i) = none) :
    ∀ i, matchCIDAt (buffer.drop i) = none := by
  intro i
  by_cases hi : i < buffer.length
  · exact h i hi
  · rw [List.drop_eq_nil_of_le (by omega), matchCIDAt_nil]

theorem parseLoop_no_cid {buffer bb : Bytes}
    (hno : ∀ i, matchCIDAt (buffer.drop i) = none) :
    ∀ (fuel : Nat) (acc : Parts) (pos : Option Nat) (e : Nat),
      parseLoop buffer bb e fuel acc pos = acc := by
  intro fuel
  induction fuel with
  | zero =>
    intro acc pos e
    cases pos <;> rfl
  | succ f ih =>
    intro acc pos e
    cases pos with
    | none => rfl
    | some p =>
      rw [parseLoop]
      by_cases hlt : p < e
      · rw [if_pos hlt]
        cases hf : findFrom buffer crlf2 p with
        | none => rfl
        | some he =>
          have hcidnone : findContentId
              (jsSlice buffer ((p : Int) + bb.length + 2) (he : Int)) = none := by
            cases hc : findContentId
                (jsSlice buffer ((p : Int) + bb.length + 2) (he : Int)) with
            | none => rfl
            | some r =>
              exfalso
              obtain ⟨i, hi⟩ := findContentId_some_ex hc
              obtain ⟨j, hj⟩ := jsSlice_drop_prefix buffer ((p : Int) + bb.length + 2)
                (he : Int) i
              obtain ⟨ext, hext⟩ := hj
              have hext' := @matchCIDAt_extend _ ext _ hi
              rw [hext] at hext'
              rw [hno j] at hext'
              exact Option.noConfusion hext'
          simp only [hcidnone]
          exact ih acc (findFrom buffer bb (he + 4)) e
      · rw [if_neg hlt]

theorem parse_no_cid {buffer bnd : Bytes}
    (h : ∀ i < buffer.length, matchCIDAt (buffer.drop i) = none) :
    parseMultipartResponse buffer bnd = [] := by
  simp only [parseMultipartResponse]
  exact parseLoop_no_cid (no_cid_all h) _ _ _ _

/-! ## The fresh-fetch path preserves the cache on every failure -/

theorem fetchFresh_error_cache {α : Type} {cache : Cache α} {st : TokenState} {now : Int}
    {bbox : List ℚ} {opts : SatOptions} {env : FetchEnv α} {err : SatError}
    (h : (fetchFresh cache st now bbox opts env).1 = Except.error err) :
    (fetchFresh cache st now bbox opts env).2.1 = cache := by
  rcases hga : getAccessToken st now env.exchange with ⟨r, st', n⟩
  cases r with
  | error e' => simp only [fetchFresh, hga]
  | ok tok =>
    cases htr : env.transport with
    | netError => simp only [fetchFresh, hga, htr]
    | ok octet body =>
      cases octet with
      | none => simp only [fetchFresh, hga, htr]
      | some ct =>
        simp only [fetchFresh, hga, htr] at h
        exact absurd h (by simp)

/-! ## Sweep characterization -/

theorem sweepCache_eq {α : Type} (now maxAge : Int) :
    ∀ c : Cache α,
      sweepCache c now maxAge
        = (c.filter (fun q => decide (now - q.2.timestamp ≤ maxAge)),
           c.countP (fun q => decide (maxAge < now - q.2.timestamp)))
  | [] => by simp [sweepCache]
  | q :: rest => by
    have ih := sweepCache_eq now maxAge rest
    by_cases hq : now - q.2.timestamp > maxAge
    · rw [sweepCache, ih]
      simp only [List.filter_cons, List.countP_cons]
      rw [if_pos hq]
      have h1 : decide (now - q.2.timestamp ≤ maxAge) = false := by
        simp only [decide_eq_false_iff_not]
        omega
      have h2 : decide (maxAge < now - q.2.timestamp) = true := by
        simp only [decide_eq_true_eq]
        omega
      rw [h1, h2]
      simp
    · rw [sweepCache, ih]
      simp only [List.filter_cons, List.countP_cons]
      rw [if_neg hq]
      have h1 : decide (now - q.2.timestamp ≤ maxAge) = true := by
        simp only [decide_eq_true_eq]
        omega
      have h2 : decide (maxAge < now - q.2.timestamp) = false := by
        simp only [decide_eq_false_iff_not]
        omega
      rw [h1, h2]
      simp

theorem sweepCache_all_old {α : Type} (now maxAge : Int) :
    ∀ c : Cache α, (∀ q ∈ c, maxAge < now - q.2.timestamp) →
      sweepCache c now maxAge = ([], c.length)
  | [] => by
    intro _
    rfl
  | q :: rest => by
    intro h
    have ih := sweepCache_all_old now maxAge rest (fun q hq => h q (List.mem_cons_of_mem _ hq))
    rw [sweepCache, ih, if_pos (by have := h q (List.mem_cons_self q rest); omega)]
    simp

/-! ## Claims -/

/-- C1, counterexample to the claim as stated: encoding one part with id
`a` and body `AAA` as a standard multipart body (body followed by a single
`\r\n` line break before the closing boundary marker) and decoding it
yields the body with its final two bytes dropped, not the original body
unchanged. -/
theorem c1_std_round_trip_cex :
    parseMultipartResponse (encodeStd (str2bytes "B") [(str2bytes "a", str2bytes "AAA")])
        (str2bytes "B")
      = [(str2bytes "a", str2bytes "A")]
    ∧ parseMultipartResponse (encodeStd (str2bytes "B") [(str2bytes "a", str2bytes "AAA")])
        (str2bytes "B")
      ≠ [(str2bytes "a", str2bytes "AAA")] := by
  constructor
  · decide
  · decide

/-- C1 (amended): for every list of parts with distinct content-IDs whose
ids and bodies satisfy the decidable well-formedness conditions (id
nonempty, free of `>`, no stray `\r\n\r\n` in the header line, no stray
boundary-marker occurrence inside a block), encoding them as a multipart
body in which each body is separated from the following boundary marker by
a blank line (`\r\n\r\n`) and terminated by the explicit closing marker,
and decoding that body with `parseMultipartResponse`, yields a mapping
containing exactly those content-IDs, each mapped to its original body
bytes unchanged.  (With the conventional single-`\r\n` separator the
decoder drops the final two bytes of each body, see the counterexample.) -/
theorem c1_round_trip (bnd : Bytes) (ps : List (Bytes × Bytes))
    (hgood : ∀ p ∈ ps, GoodPart bnd p) (hnodup : (ps.map Prod.fst).Nodup) :
    parseMultipartResponse (encodeClose bnd ps) bnd = ps :=
  parse_encodeClose bnd ps hgood hnodup

/-- C1, witness: the round trip at a concrete two-part input. -/
theorem c1_round_trip_witness :
    parseMultipartResponse
        (encodeClose (str2bytes "B")
          [(str2bytes "truecolor", [137, 80, 78]), (str2bytes "ndvi", [0, 255])])
        (str2bytes "B")
      = [(str2bytes "truecolor", [137, 80, 78]), (str2bytes "ndvi", [0, 255])] :=
  c1_round_trip (str2bytes "B")
    [(str2bytes "truecolor", [137, 80, 78]), (str2bytes "ndvi", [0, 255])]
    (by decide) (by decide)

/-- C2, counterexample to the claim as stated: for the same part content
(id `a`, body bytes `XYZW`), the buffer that simply ends at end-of-buffer
decodes `a` to `XY`, while the same content terminated by an explicit
closing boundary marker decodes `a` to the empty body — the two mappings
differ. -/
theorem c2_close_vs_eof_cex :
    parseMultipartResponse (str2bytes "--B\r\nContent-ID: <a>\r\n\r\nXYZW") (str2bytes "B")
      = [(str2bytes "a", str2bytes "XY")]
    ∧ parseMultipartResponse (str2bytes "--B\r\nContent-ID: <a>\r\n\r\nXYZW--B--")
        (str2bytes "B")
      = [(str2bytes "a", [])]
    ∧ parseMultipartResponse (str2bytes "--B\r\nContent-ID: <a>\r\n\r\nXYZW") (str2bytes "B")
      ≠ parseMultipartResponse (str2bytes "--B\r\nContent-ID: <a>\r\n\r\nXYZW--B--")
        (str2bytes "B") := by
  refine ⟨by decide, by decide, by decide⟩

/-- C2 (amended): for every well-formed list of parts, decoding the
encoding terminated by an explicit closing boundary marker (each body
followed by a blank line, then `--boundary--`) and decoding the encoding
that simply ends at end-of-buffer (final body followed by a single `\r\n`)
produce identical mappings — both recover exactly the encoded parts.  For
arbitrary buffer content the two terminations can disagree, see the
counterexample. -/
theorem c2_close_vs_eof (bnd : Bytes) (ps : List (Bytes × Bytes))
    (hgood : ∀ p ∈ ps, GoodPart bnd p) (hnodup : (ps.map Prod.fst).Nodup) :
    parseMultipartResponse (encodeClose bnd ps) bnd
      = parseMultipartResponse (encodeEOF bnd ps) bnd := by
  rw [parse_encodeClose bnd ps hgood hnodup, parse_encodeEOF bnd ps hgood hnodup]

/-- C2, witness: both terminations at a concrete two-part input. -/
theorem c2_close_vs_eof_witness :
    parseMultipartResponse
        (encodeClose (str2bytes "B") [(str2bytes "a", [0, 45, 1]), (str2bytes "b", [2])])
        (str2bytes "B")
      = parseMultipartResponse
          (encodeEOF (str2bytes "B") [(str2bytes "a", [0, 45, 1]), (str2bytes "b", [2])])
          (str2bytes "B") :=
  c2_close_vs_eof (str2bytes "B") [(str2bytes "a", [0, 45, 1]), (str2bytes "b", [2])]
    (by decide) (by decide)

/-- C3, counterexample to the claim as stated: a buffer containing a
boundary marker that is never followed by the `\r\n\r\n` header/body
delimiter does not make the decoder fail — `parseMultipartResponse` has no
failure outcome at all (the JS method contains no `throw`) and here
returns the empty mapping normally. -/
theorem c3_no_delim_cex :
    parseMultipartResponse (str2bytes "--Bgarbage") (str2bytes "B") = [] := by
  decide

/-- C3 (amended): when a boundary marker occurrence is not followed
anywhere later in the buffer by the header/body delimiter `\r\n\r\n`, the
decoder stops scanning at that point and returns the mapping accumulated
so far, without any error: the loop returns its accumulator, and when this
happens at the first boundary the whole decode returns the empty mapping. -/
theorem c3_no_delim_stops :
    (∀ (buffer bnd : Bytes) (e fuel : Nat) (acc : Parts) (pos : Nat),
      findFrom buffer crlf2 pos = none →
      parseLoop buffer ([45, 45] ++ bnd) e (fuel + 1) acc (some pos) = acc)
    ∧ (∀ (buffer bnd : Bytes) (p : Nat),
        findFrom buffer ([45, 45] ++ bnd) 0 = some p →
        findFrom buffer crlf2 p = none →
        parseMultipartResponse buffer bnd = []) := by
  constructor
  · intro buffer bnd e fuel acc pos h
    exact parseLoop_stop_of_no_delim h
  · intro buffer bnd p hp h
    simp only [parseMultipartResponse, hp]
    exact parseLoop_stop_of_no_delim h

/-- C3, witness: both conjuncts at the concrete `--Bgarbage` buffer. -/
theorem c3_no_delim_stops_witness :
    parseLoop (str2bytes "--Bgarbage") ([45, 45] ++ str2bytes "B") 10 1
        [(str2bytes "x", [1])] (some 0)
      = [(str2bytes "x", [1])]
    ∧ parseMultipartResponse (str2bytes "--Bgarbage") (str2bytes "B") = [] :=
  ⟨(c3_no_delim_stops).1 (str2bytes "--Bgarbage") (str2bytes "B") 10 0
      [(str2bytes "x", [1])] 0 (by decide),
   (c3_no_delim_stops).2 (str2bytes "--Bgarbage") (str2bytes "B") 0 (by decide) (by decide)⟩

/-- C4, counterexample to the claim as stated: with a cached credential
that is the empty string and an expiry still in the future (`now = 50 <
100 = expiry`), `getAccessToken` does not return the cached credential
with zero exchanges — the falsy-token guard `this.token && ...` fails, so
it performs a credential exchange and overwrites the cache. -/
theorem c4_cached_return_cex :
    getAccessToken ⟨some "", some 100⟩ 50 (ExchangeOutcome.ok (some "t") (some 60))
      = (Except.ok (some "t"), ⟨some "t", some 60050⟩, 1) := by
  decide

/-- C4 (amended): `getAccessToken` returns the cached credential with no
exchange when a nonempty token is cached and `now < expiry`; in every
other state it performs exactly one exchange, overwrites the cached
credential and sets `expiry = now + expires_in * 1000` (milliseconds);
consequently, starting from the empty state, a fetch followed by a second
fetch issued before the recorded expiry triggers exactly one exchange in
total, and a fetch issued at `now ≥ expiry` triggers an exchange. -/
theorem c4_token_lifecycle :
    (∀ (st : TokenState) (now : Int) (ex : ExchangeOutcome) (t : String) (e : Int),
      st.token = some t → t ≠ "" → st.tokenExpiry = some e → now < e →
      getAccessToken st now ex = (Except.ok (some t), st, 0))
    ∧ (∀ (st : TokenState) (now : Int) (tok : String) (s : Int),
        tokenValid st now = false →
        getAccessToken st now (ExchangeOutcome.ok (some tok) (some s))
          = (Except.ok (some tok), ⟨some tok, some (now + s * 1000)⟩, 1))
    ∧ (∀ (t1 t2 : Int) (tok : String) (s : Int) (ex2 : ExchangeOutcome),
        tok ≠ "" → t2 < t1 + s * 1000 →
        (getAccessToken ⟨none, none⟩ t1 (ExchangeOutcome.ok (some tok) (some s))).2.2
          + (getAccessToken ⟨some tok, some (t1 + s * 1000)⟩ t2 ex2).2.2 = 1)
    ∧ (∀ (st : TokenState) (now : Int) (ex : ExchangeOutcome) (e : Int),
        st.tokenExpiry = some e → e ≤ now → (getAccessToken st now ex).2.2 = 1) := by
  have hvalid_true : ∀ (t : String) (e : Int) (now : Int), t ≠ "" → now < e →
      tokenValid ⟨some t, some e⟩ now = true := by
    intro t e now h2 h4
    simp only [tokenValid, Bool.and_eq_true, bne_iff_ne, ne_eq, decide_eq_true_eq]
    exact ⟨h2, h4⟩
  refine ⟨?_, ?_, ?_, ?_⟩
  · intro st now ex t e h1 h2 h3 h4
    obtain ⟨tk, te⟩ := st
    simp only at h1 h3
    subst h1
    subst h3
    rw [getAccessToken.eq_def, if_pos (hvalid_true t e now h2 h4)]
  · intro st now tok s hv
    rw [getAccessToken.eq_def, if_neg (by rw [hv]; simp)]
    rfl
  · intro t1 t2 tok s ex2 htok ht2
    have h1 : (getAccessToken ⟨none, none⟩ t1 (ExchangeOutcome.ok (some tok) (some s))).2.2
        = 1 := rfl
    have h2 : (getAccessToken ⟨some tok, some (t1 + s * 1000)⟩ t2 ex2).2.2 = 0 := by
      rw [getAccessToken.eq_def, if_pos (hvalid_true tok (t1 + s * 1000) t2 htok ht2)]
    rw [h1, h2]
  · intro st now ex e hexp hle
    have hv : tokenValid st now = false := by
      rcases hst : st.token with _ | t
      · simp [tokenValid, hst]
      · have hne : ¬ now < e := by omega
        simp [tokenValid, hst, hexp, hne]
    rw [getAccessToken.eq_def, if_neg (by rw [hv]; simp)]
    cases ex <;> rfl

/-- C4, witness: all four conjuncts at concrete inputs. -/
theorem c4_token_lifecycle_witness :
    getAccessToken ⟨some "tok", some 100⟩ 50 ExchangeOutcome.httpError
        = (Except.ok (some "tok"), ⟨some "tok", some 100⟩, 0)
    ∧ getAccessToken ⟨none, none⟩ 0 (ExchangeOutcome.ok (some "t2") (some 60))
        = (Except.ok (some "t2"), ⟨some "t2", some 60000⟩, 1)
    ∧ (getAccessToken ⟨none, none⟩ 0 (ExchangeOutcome.ok (some "t2") (some 60))).2.2
        + (getAccessToken ⟨some "t2", some 60000⟩ 30000 ExchangeOutcome.httpError).2.2 = 1
    ∧ (getAccessToken ⟨some "tok", some 100⟩ 100 ExchangeOutcome.httpError).2.2 = 1 :=
  ⟨(c4_token_lifecycle).1 ⟨some "tok", some 100⟩ 50 ExchangeOutcome.httpError "tok" 100
      rfl (by decide) rfl (by decide),
   (c4_token_lifecycle).2.1 ⟨none, none⟩ 0 "t2" 60 rfl,
   (c4_token_lifecycle).2.2.1 0 30000 "t2" 60 ExchangeOutcome.httpError (by decide) (by decide),
   (c4_token_lifecycle).2.2.2 ⟨some "tok", some 100⟩ 100 ExchangeOutcome.httpError 100
      rfl (by decide)⟩

/-- C7, counterexample to the claim as stated: a credential exchange that
returns success but a payload missing both `access_token` and
`expires_in` does not make `getAccessToken` fail with `AuthError` — it
stores the missing token (`undefined`/`NaN` expiry) and returns it
silently as a success value. -/
theorem c7_malformed_payload_cex :
    getAccessToken ⟨none, none⟩ 0 (ExchangeOutcome.ok none none)
      = (Except.ok none, ⟨none, none⟩, 1) := rfl

/-- C7 (amended): `getAccessToken` fails with `AuthError` exactly when the
remote credential exchange itself fails (network error or non-success
status, which makes axios throw); a success response with a malformed
payload (missing `access_token` or `expires_in`) is not an error: the
malformed credential is cached and returned as-is. -/
theorem c7_auth_error_iff_transport :
    (∀ (st : TokenState) (now : Int), tokenValid st now = false →
      getAccessToken st now ExchangeOutcome.httpError
        = (Except.error AuthError.authFailed, st, 1))
    ∧ (∀ (st : TokenState) (now : Int) (a : Option String) (ei : Option Int),
        tokenValid st now = false →
        getAccessToken st now (ExchangeOutcome.ok a ei)
          = (Except.ok a, ⟨a, ei.map fun s => now + s * 1000⟩, 1))
    ∧ (∀ (st : TokenState) (now : Int) (ex : ExchangeOutcome) (err : AuthError),
        (getAccessToken st now ex).1 = Except.error err → ex = ExchangeOutcome.httpError) := by
  refine ⟨?_, ?_, ?_⟩
  · intro st now hv
    rw [getAccessToken.eq_def, if_neg (by rw [hv]; simp)]
  · intro st now a ei hv
    rw [getAccessToken.eq_def, if_neg (by rw [hv]; simp)]
  · intro st now ex err h
    by_cases hv : tokenValid st now = true
    · rw [getAccessToken.eq_def, if_pos hv] at h
      cases h
    · rw [getAccessToken.eq_def, if_neg hv] at h
      cases ex with
      | httpError => rfl
      | ok a ei => cases h

/-- C7, witness: all three conjuncts at concrete inputs. -/
theorem c7_auth_error_iff_transport_witness :
    getAccessToken ⟨none, none⟩ 0 ExchangeOutcome.httpError
        = (Except.error AuthError.authFailed, ⟨none, none⟩, 1)
    ∧ getAccessToken ⟨none, none⟩ 0 (ExchangeOutcome.ok (some "x") (some 5))
        = (Except.ok (some "x"), ⟨some "x", some 5000⟩, 1)
    ∧ ExchangeOutcome.httpError = ExchangeOutcome.httpError :=
  ⟨(c7_auth_error_iff_transport).1 ⟨none, none⟩ 0 rfl,
   (c7_auth_error_iff_transport).2.1 ⟨none, none⟩ 0 (some "x") (some 5) rfl,
   (c7_auth_error_iff_transport).2.2 ⟨none, none⟩ 0 ExchangeOutcome.httpError
     AuthError.authFailed rfl⟩

/-- C5: for every fetch that fails at any stage (auth, transport, or the
missing-content-type TypeError), the error propagates to the caller as the
result and the cache is left completely unchanged — in particular no entry
is created or overwritten for the request's key, so nothing partial is
ever cached. -/
theorem c5_error_preserves_cache {α : Type} (cacheDuration : Int) (cache : Cache α)
    (st : TokenState) (now : Int) (bbox : List ℚ) (opts : SatOptions) (env : FetchEnv α)
    (err : SatError)
    (h : (getSatelliteData cacheDuration cache st now bbox opts env).1 = Except.error err) :
    (getSatelliteData cacheDuration cache st now bbox opts env).2.1 = cache := by
  rcases hget : assocGet cache (⟨bbox, opts.width, opts.height⟩ : RequestKey) with _ | entry
  · simp only [getSatelliteData, hget] at h ⊢
    exact fetchFresh_error_cache h
  · simp only [getSatelliteData, hget] at h ⊢
    by_cases hc : now - entry.timestamp < cacheDuration
    · rw [if_pos hc] at h
      cases h
    · rw [if_neg hc] at h ⊢
      exact fetchFresh_error_cache h

/-- C5, witness: a concrete failing fetch (auth failure) propagates the
error and leaves the concrete cache unchanged. -/
theorem c5_error_preserves_cache_witness :
    (getSatelliteData (α := Nat) 3600000 [] ⟨none, none⟩ 0 [1, 2, 3, 4] ⟨512, 512, 30⟩
        ⟨ExchangeOutcome.httpError, TransportOutcome.netError, 0⟩).1
      = Except.error SatError.authFailed
    ∧ (getSatelliteData (α := Nat) 3600000 [] ⟨none, none⟩ 0 [1, 2, 3, 4] ⟨512, 512, 30⟩
        ⟨ExchangeOutcome.httpError, TransportOutcome.netError, 0⟩).2.1
      = [] :=
  ⟨rfl,
   c5_error_preserves_cache 3600000 [] ⟨none, none⟩ 0 [1, 2, 3, 4] ⟨512, 512, 30⟩
     ⟨ExchangeOutcome.httpError, TransportOutcome.netError, 0⟩ SatError.authFailed rfl⟩

/-- C6: the cache sweep removes exactly the entries whose age
(`now - createdAt`) exceeds `maxAge`, leaves every other entry in place in
order, and reports the removed count; in particular, on a cache in which
every entry is older than `maxAge`, it removes all K entries and reports
K. -/
theorem c6_sweep_exact {α : Type} :
    (∀ (c : Cache α) (now maxAge : Int),
      sweepCache c now maxAge
        = (c.filter (fun q => decide (now - q.2.timestamp ≤ maxAge)),
           c.countP (fun q => decide (maxAge < now - q.2.timestamp))))
    ∧ (∀ (c : Cache α) (now maxAge : Int),
        (∀ q ∈ c, maxAge < now - q.2.timestamp) →
        sweepCache c now maxAge = ([], c.length)) :=
  ⟨fun c now maxAge => sweepCache_eq now maxAge c,
   fun c now maxAge h => sweepCache_all_old now maxAge c h⟩

/-- C6, witness: a concrete all-old cache of two entries is swept to empty
with a reported count of 2. -/
theorem c6_sweep_exact_witness :
    sweepCache (α := Nat)
        [(⟨[], 1, 1⟩, ⟨0, ⟨none, none, none, none, ⟨0, [], 30, "s"⟩, 0⟩⟩),
         (⟨[], 2, 2⟩, ⟨10, ⟨none, none, none, none, ⟨0, [], 30, "s"⟩, 0⟩⟩)] 100 50
      = ([], 2) :=
  (c6_sweep_exact).2
    [(⟨[], 1, 1⟩, ⟨0, ⟨none, none, none, none, ⟨0, [], 30, "s"⟩, 0⟩⟩),
     (⟨[], 2, 2⟩, ⟨10, ⟨none, none, none, none, ⟨0, [], 30, "s"⟩, 0⟩⟩)] 100 50 (by decide)

/-- C8, counterexample to the claim as stated: the bbox `[0, 0, 0, 0]`
violates `minLon < maxLon` and `minLat < maxLat`, yet the handler does not
reject it — it proceeds into the pipeline and here answers the request
straight from a seeded cache entry (a cache access the claim says must not
happen), with both failure oracles showing no network outcome was even
consulted. -/
theorem c8_order_not_checked_cex :
    handleSatelliteData (α := Nat) 3600000 (some [0, 0, 0, 0]) ⟨512, 512, 30⟩
        [(⟨[0, 0, 0, 0], 512, 512⟩,
          ⟨0, ⟨none, none, none, none, ⟨0, [0, 0, 0, 0], 30, "s"⟩, 7⟩⟩)]
        ⟨none, none⟩ 1 ⟨ExchangeOutcome.httpError, TransportOutcome.netError, 0⟩
      = (ApiResponse.success ⟨none, none, none, none, ⟨0, [0, 0, 0, 0], 30, "s"⟩, 7⟩,
         [(⟨[0, 0, 0, 0], 512, 512⟩,
           ⟨0, ⟨none, none, none, none, ⟨0, [0, 0, 0, 0], 30, "s"⟩, 7⟩⟩)],
         ⟨none, none⟩) := by
  decide

/-- C8 (amended): the `POST /api/satellite-data` handler rejects with a
validation error, before touching the cache, the token state, or any
network outcome, exactly those requests whose bbox is missing (or not an
array) or does not have exactly 4 components; the component values
themselves (ordering, finiteness) are never examined, so any 4-component
bbox proceeds into the pipeline. -/
theorem c8_validation_shape_only :
    (∀ (α : Type) (cd : Int) (opts : SatOptions) (cache : Cache α) (st : TokenState)
        (now : Int) (env env' : FetchEnv α),
      handleSatelliteData cd none opts cache st now env
        = (ApiResponse.validationError, cache, st)
      ∧ handleSatelliteData cd none opts cache st now env
        = handleSatelliteData cd none opts cache st now env')
    ∧ (∀ (α : Type) (cd : Int) (bbox : List ℚ) (opts : SatOptions) (cache : Cache α)
        (st : TokenState) (now : Int) (env env' : FetchEnv α), bbox.length ≠ 4 →
      handleSatelliteData cd (some bbox) opts cache st now env
        = (ApiResponse.validationError, cache, st)
      ∧ handleSatelliteData cd (some bbox) opts cache st now env
        = handleSatelliteData cd (some bbox) opts cache st now env')
    ∧ (∀ (α : Type) (cd : Int) (bbox : List ℚ) (opts : SatOptions) (cache : Cache α)
        (st : TokenState) (now : Int) (env : FetchEnv α), bbox.length = 4 →
      (handleSatelliteData cd (some bbox) opts cache st now env).1
        ≠ ApiResponse.validationError) := by
  refine ⟨?_, ?_, ?_⟩
  · intro α cd opts cache st now env env'
    exact ⟨rfl, rfl⟩
  · intro α cd bbox opts cache st now env env' hlen
    constructor
    · rw [handleSatelliteData.eq_def]
      simp only [if_pos hlen]
    · rw [handleSatelliteData.eq_def, handleSatelliteData.eq_def]
      simp only [if_pos hlen]
  · intro α cd bbox opts cache st now env hlen
    rw [handleSatelliteData.eq_def]
    simp only [if_neg (by omega : ¬ bbox.length ≠ 4)]
    rcases hg : getSatelliteData cd cache st now bbox opts env with ⟨r, c', st'⟩
    cases r <;> simp

/-- C8, witness: all three conjuncts at concrete inputs (missing bbox, a
3-component bbox, a 4-component bbox). -/
theorem c8_validation_shape_only_witness :
    handleSatelliteData (α := Nat) 0 none ⟨512, 512, 30⟩ [] ⟨none, none⟩ 0
        ⟨ExchangeOutcome.httpError, TransportOutcome.netError, 0⟩
      = (ApiResponse.validationError, [], ⟨none, none⟩)
    ∧ handleSatelliteData (α := Nat) 0 (some [1, 2, 3]) ⟨512, 512, 30⟩ [] ⟨none, none⟩ 0
        ⟨ExchangeOutcome.httpError, TransportOutcome.netError, 0⟩
      = (ApiResponse.validationError, [], ⟨none, none⟩)
    ∧ (handleSatelliteData (α := Nat) 0 (some [5, 5, 1, 1]) ⟨512, 512, 30⟩ [] ⟨none, none⟩ 0
        ⟨ExchangeOutcome.httpError, TransportOutcome.netError, 0⟩).1
      ≠ ApiResponse.validationError :=
  ⟨((c8_validation_shape_only).1 Nat 0 ⟨512, 512, 30⟩ [] ⟨none, none⟩ 0
      ⟨ExchangeOutcome.httpError, TransportOutcome.netError, 0⟩
      ⟨ExchangeOutcome.httpError, TransportOutcome.netError, 0⟩).1,
   ((c8_validation_shape_only).2.1 Nat 0 [1, 2, 3] ⟨512, 512, 30⟩ [] ⟨none, none⟩ 0
      ⟨ExchangeOutcome.httpError, TransportOutcome.netError, 0⟩
      ⟨ExchangeOutcome.httpError, TransportOutcome.netError, 0⟩ (by decide)).1,
   (c8_validation_shape_only).2.2 Nat 0 [5, 5, 1, 1] ⟨512, 512, 30⟩ [] ⟨none, none⟩ 0
      ⟨ExchangeOutcome.httpError, TransportOutcome.netError, 0⟩ (by decide)⟩

/-- C9: decoding a multipart buffer in which no position matches the
`Content-ID: <...>` header pattern returns the empty mapping rather than
an error, and a part lacking a Content-ID header is skipped while scanning
continues to subsequent parts (concrete buffer: a first part with only an
`X-Type` header is skipped, the second part is extracted). -/
theorem c9_no_content_id :
    (∀ (buffer bnd : Bytes),
      (∀ i < buffer.length, matchCIDAt (buffer.drop i) = none) →
      parseMultipartResponse buffer bnd = [])
    ∧ parseMultipartResponse
        (str2bytes
          "--B\r\nX-Type: png\r\n\r\nBODY\r\n\r\n--B\r\nContent-ID: <b>\r\n\r\nQQ\r\n\r\n--B--")
        (str2bytes "B")
      = [(str2bytes "b", str2bytes "QQ")] := by
  constructor
  · intro buffer bnd h
    exact parse_no_cid h
  · decide

/-- C9, witness: a concrete multipart buffer with no Content-ID header
anywhere decodes to the empty mapping. -/
theorem c9_no_content_id_witness :
    parseMultipartResponse (str2bytes "--B\r\nX-Type: png\r\n\r\nBODY") (str2bytes "B")
      = [] :=
  (c9_no_content_id).1 (str2bytes "--B\r\nX-Type: png\r\n\r\nBODY") (str2bytes "B")
    (by decide)

/-- C10: if the decoded multipart mapping contains none of the four
expected content-IDs (truecolor, ndvi, ndwi, scl), `getSatelliteData`
still succeeds with a payload whose four image fields are all `null`, it
writes that all-null payload into the cache under the request key, and a
subsequent request within the max-age window is served that cached all-null
payload unchanged (no further cache write, token state untouched). -/
theorem c10_all_null_payload_cached {α : Type} (cd : Int) (cache : Cache α)
    (st st2 : TokenState) (now now2 : Int) (bbox : List ℚ) (opts : SatOptions)
    (env env2 : FetchEnv α) (ct : String) (body : Bytes)
    (hmiss : assocGet cache (⟨bbox, opts.width, opts.height⟩ : RequestKey) = none)
    (hval : tokenValid st now = true)
    (htr : env.transport = TransportOutcome.ok (some ct) body)
    (h1 : lookupPart (parseMultipartResponse body (boundaryBytes ct))
      (str2bytes "truecolor") = none)
    (h2 : lookupPart (parseMultipartResponse body (boundaryBytes ct))
      (str2bytes "ndvi") = none)
    (h3 : lookupPart (parseMultipartResponse body (boundaryBytes ct))
      (str2bytes "ndwi") = none)
    (h4 : lookupPart (parseMultipartResponse body (boundaryBytes ct))
      (str2bytes "scl") = none)
    (hfresh : now2 - now < cd) :
    getSatelliteData cd cache st now bbox opts env
      = (Except.ok ⟨none, none, none, none,
            ⟨now, bbox, opts.maxCloudCoverage, "Sentinel-2 L2A"⟩, env.analysis⟩,
         assocSet cache ⟨bbox, opts.width, opts.height⟩
           ⟨now, ⟨none, none, none, none,
              ⟨now, bbox, opts.maxCloudCoverage, "Sentinel-2 L2A"⟩, env.analysis⟩⟩, st)
    ∧ getSatelliteData cd
        (assocSet cache ⟨bbox, opts.width, opts.height⟩
          ⟨now, ⟨none, none, none, none,
             ⟨now, bbox, opts.maxCloudCoverage, "Sentinel-2 L2A"⟩, env.analysis⟩⟩)
        st2 now2 bbox opts env2
      = (Except.ok ⟨none, none, none, none,
            ⟨now, bbox, opts.maxCloudCoverage, "Sentinel-2 L2A"⟩, env.analysis⟩,
         assocSet cache ⟨bbox, opts.width, opts.height⟩
           ⟨now, ⟨none, none, none, none,
              ⟨now, bbox, opts.maxCloudCoverage, "Sentinel-2 L2A"⟩, env.analysis⟩⟩, st2) := by
  have hpay : mkPayload (parseMultipartResponse body (boundaryBytes ct)) bbox opts now
      env.analysis
      = (⟨none, none, none, none,
          ⟨now, bbox, opts.maxCloudCoverage, "Sentinel-2 L2A"⟩, env.analysis⟩ :
            SatPayload α) := by
    simp only [mkPayload, h1, h2, h3, h4, Option.map_none']
  have hga : getAccessToken st now env.exchange = (Except.ok st.token, st, 0) := by
    rw [getAccessToken.eq_def, if_pos hval]
  constructor
  · simp only [getSatelliteData, hmiss]
    simp only [fetchFresh, hga, htr, hpay]
  · have hset := assocGet_assocSet_self cache (⟨bbox, opts.width, opts.height⟩ : RequestKey)
      ⟨now, ⟨none, none, none, none,
        ⟨now, bbox, opts.maxCloudCoverage, "Sentinel-2 L2A"⟩, env.analysis⟩⟩
    simp only [getSatelliteData, hset]
    rw [if_pos hfresh]

/-- C10, witness: the all-null fetch-and-cache behavior at concrete
inputs (empty response body, content type without a boundary parameter). -/
theorem c10_all_null_payload_cached_witness :
    getSatelliteData (α := Nat) 3600000 [] ⟨some "t", some 10⟩ 5 [1, 2, 3, 4] ⟨512, 512, 30⟩
        ⟨ExchangeOutcome.httpError, TransportOutcome.ok (some "text") [], 0⟩
      = (Except.ok ⟨none, none, none, none, ⟨5, [1, 2, 3, 4], 30, "Sentinel-2 L2A"⟩, 0⟩,
         assocSet [] ⟨[1, 2, 3, 4], 512, 512⟩
           ⟨5, ⟨none, none, none, none, ⟨5, [1, 2, 3, 4], 30, "Sentinel-2 L2A"⟩, 0⟩⟩,
         ⟨some "t", some 10⟩)
    ∧ getSatelliteData (α := Nat) 3600000
        (assocSet [] ⟨[1, 2, 3, 4], 512, 512⟩
          ⟨5, ⟨none, none, none, none, ⟨5, [1, 2, 3, 4], 30, "Sentinel-2 L2A"⟩, 0⟩⟩)
        ⟨none, none⟩ 6 [1, 2, 3, 4] ⟨512, 512, 30⟩
        ⟨ExchangeOutcome.httpError, TransportOutcome.netError, 9⟩
      = (Except.ok ⟨none, none, none, none, ⟨5, [1, 2, 3, 4], 30, "Sentinel-2 L2A"⟩, 0⟩,
         assocSet [] ⟨[1, 2, 3, 4], 512, 512⟩
           ⟨5, ⟨none, none, none, none, ⟨5, [1, 2, 3, 4], 30, "Sentinel-2 L2A"⟩, 0⟩⟩,
         ⟨none, none⟩) :=
  c10_all_null_payload_cached 3600000 [] ⟨some "t", some 10⟩ ⟨none, none⟩ 5 6 [1, 2, 3, 4]
    ⟨512, 512, 30⟩ ⟨ExchangeOutcome.httpError, TransportOutcome.ok (some "text") [], 0⟩
    ⟨ExchangeOutcome.httpError, TransportOutcome.netError, 9⟩ "text" []
    rfl (by decide) rfl (by decide) (by decide) (by decide) (by decide) (by decide)
